import Mathlib

/-!
Shallow embedding of `conductor/io.py` (the VIC–RGM conductor's file/state
translation module) together with proofs about the claims of its
specification.

Modelling conventions:
* Python numeric scalars are modelled exactly: `Int` for the values held in
  the flat VIC state store, `Rat` for DEM elevations and parsed floats
  (floating-point rounding is not what any claim is about; all the code does
  with values is move, compare and subtract them).
* A text file is modelled pre-tokenized: a `List` of lines, each line being
  the list of its whitespace-separated tokens (for the pixel-map file) or of
  typed tokens (for GSA files, where Python's exact `str`/`float`/`int`
  round-trip for numerals is modelled by tokens carrying their values).
* Python `dict`s are association lists iterated in insertion order; in-place
  mutation becomes functional update.
* A raised exception (`assert`, `KeyError`, `IndexError`, `ValueError`,
  `ZeroDivisionError`, explicit `raise`) is a `PyError` result where the
  claims talk about error labels, and `Option.none` in the state
  synchronizer and pixel-map loader, whose claims only concern the success
  path.  On a failure the Python code aborts with any earlier in-place
  mutations kept; the functional model discards them, which is irrelevant to
  the claims (all are about completed calls or about reads).
* `numpy` slice reads (indexing a 3-D array with two indices) would yield an
  array object; the model's scalar domain cannot hold one, so they are
  modelled as failures (`typeError`).  No claim exercises that path.
  Broadcast scalar assignment into a 1-D slice is modelled faithfully.
-/

namespace Conductor

/-- Kinds of Python run-time failure raised by `io.py` or by the library
calls it performs. -/
inductive PyError where
  | assertionError : String → PyError
  | exception : String → PyError
  | keyError : PyError
  | indexError : PyError
  | valueError : PyError
  | typeError : PyError
  | zeroDivisionError : PyError
deriving DecidableEq, Repr

/-! ## Association lists: the model of Python `dict` -/

/-- First-match lookup in an association list (Python `d[k]` read /
`k in d`). -/
def lookupA {κ α : Type} [DecidableEq κ] : List (κ × α) → κ → Option α
  | [], _ => none
  | p :: ps, k => if p.1 = k then some p.2 else lookupA ps k

/-- Replace the value of the first entry with the given key, leaving the key
sequence unchanged (the model of mutating the object stored under an
existing key). -/
def setA {κ α : Type} [DecidableEq κ] : List (κ × α) → κ → α → List (κ × α)
  | [], _, _ => []
  | p :: ps, k, v => if p.1 = k then (p.1, v) :: ps else p :: setA ps k v

/-! ## Decimal parsing: the model of Python `int(...)` and `float(...)`
on the strings that occur in the mapping files.  (Exponent notation,
`inf`/`nan` and underscores are not modelled; no claim needs them.) -/

/-- Numeric value of a digit string (tokens are ASCII digits). -/
def digitsVal (l : List Char) : Nat := l.foldl (fun a c => 10 * a + (c.toNat - 48)) 0

/-- Parse an unsigned decimal integer literal. -/
def parseNatList : List Char → Option Nat := fun l =>
  if l ≠ [] ∧ l.all Char.isDigit then some (digitsVal l) else none

/-- Parse a signed decimal integer literal, Python `int(string)`. -/
def parseInt? (s : String) : Option Int :=
  match s.toList with
  | '-' :: r => (parseNatList r).map (fun n => -(n : Int))
  | '+' :: r => (parseNatList r).map (fun n => (n : Int))
  | r => (parseNatList r).map (fun n => (n : Int))

/-- Split a character list at the first dot, if any. -/
def splitFrac : List Char → List Char × Option (List Char)
  | [] => ([], none)
  | c :: r =>
    if c = '.' then ([], some r)
    else
      let p := splitFrac r
      (c :: p.1, p.2)

/-- Parse an unsigned decimal literal with an optional fractional part. -/
def parseDecList (l : List Char) : Option Rat :=
  let p := splitFrac l
  match p.2 with
  | none => if p.1 ≠ [] ∧ p.1.all Char.isDigit then some ((digitsVal p.1 : Int) : Rat) else none
  | some fp =>
    if (p.1 ≠ [] ∨ fp ≠ []) ∧ p.1.all Char.isDigit ∧ fp.all Char.isDigit then
      some (((digitsVal p.1 : Int) : Rat) + ((digitsVal fp : Int) : Rat) / ((10 : Rat) ^ fp.length))
    else none

/-- Parse a signed decimal literal, Python `float(string)`. -/
def parseDec? (s : String) : Option Rat :=
  match s.toList with
  | '-' :: r => (parseDecList r).map (fun q => -q)
  | '+' :: r => parseDecList r
  | r => parseDecList r

/-- Python `str.startswith`. -/
def strStartsWith (s p : String) : Bool := p.toList.isPrefixOf s.toList

/-! ## `get_rgm_pixel_mapping` -/

/-- A pixel-granularity grid; `none` is the `np.nan` "unmapped" fill. -/
abbrev PixGrid := List (List (Option Rat))

/-- `numpy` index semantics for one axis: negative indices wrap once,
anything outside `[-n, n)` is an `IndexError`. -/
def npIdx (n : Nat) (i : Int) : Option Nat :=
  if 0 ≤ i ∧ i < (n : Int) then some i.toNat
  else if -(n : Int) ≤ i ∧ i < 0 then some (i + n).toNat
  else none

/-- Shortcut instance so that concrete runs of the pixel-map loader can be
checked by `decide`. -/
instance : DecidableEq PixGrid := inferInstance

/-- Write one pixel of a grid (both indices already validated by `npIdx`). -/
def setPix (m : PixGrid) (i j : Nat) (v : Option Rat) : PixGrid :=
  m.set i ((m.getD i []).set j v)

/-- Increment the pixel count of `cell_areas[k]`, inserting the key at the
end on first sight — Python's
`if cell_id in cell_areas: cell_areas[cell_id] += 1 else: cell_areas[cell_id] = 1`. -/
def bumpArea : List (String × Nat) → String → List (String × Nat)
  | [], k => [(k, 1)]
  | p :: ps, k => if p.1 = k then (p.1, p.2 + 1) :: ps else p :: bumpArea ps k

/-- A header line split as Python `line.split(None, 1)`: the key token and
the remaining tokens of the line (unpack of fewer than one token fails). -/
def parseHeaderLine : List String → Option (String × List String)
  | [] => none
  | k :: rest => some (k, rest)

/-- Python `int(value)` on the remainder of a header line: it succeeds
exactly when the remainder is a single integer token. -/
def parseHdrInt : List String → Option Int
  | [t] => parseInt? t
  | _ => none

/-- The body of the `for line in f` loop of `get_rgm_pixel_mapping`, over the
remaining record lines: unpack six fields, convert the pixel indices with
`int`, then unless the cell id is the literal `"NA"` store the (numerically
coerced) cell id and median elevation at `[i, j]` of the two grids, and in
every case bump `cell_areas[cell_id]`. -/
def parseRecords (ny nx : Nat) :
    List (List String) → PixGrid → PixGrid → List (String × Nat) →
    Option (PixGrid × PixGrid × List (String × Nat))
  | [], cm, zm, areas => some (cm, zm, areas)
  | line :: rest, cm, zm, areas =>
    match line with
    | [_f0, si, sj, _f3, selev, cid] =>
      (parseInt? si).bind fun i =>
      (parseInt? sj).bind fun j =>
      if cid = "NA" then
        parseRecords ny nx rest cm zm (bumpArea areas cid)
      else
        (npIdx ny i).bind fun ii =>
        (npIdx nx j).bind fun jj =>
        (parseDec? cid).bind fun cv =>
        (parseDec? selev).bind fun zv =>
        parseRecords ny nx rest (setPix cm ii jj (some cv)) (setPix zm ii jj (some zv))
          (bumpArea areas cid)
    | _ => none

/-- `get_rgm_pixel_mapping(pixel_map_file)`: two order-independent
`NCOLS`/`NROWS` header lines, one discarded column-header line, then one
record per remaining line; returns
`(cell_id_map, z_map, cell_areas, nx, ny)`.  `np.empty((ny, nx))` rejects
negative dimensions. -/
def get_rgm_pixel_mapping (file : List (List String)) :
    Option (PixGrid × PixGrid × List (String × Nat) × Nat × Nat) :=
  (parseHeaderLine (file.headD [])).bind fun h1 =>
  (parseHeaderLine ((file.drop 1).headD [])).bind fun h2 =>
  (lookupA [h1, h2] "NCOLS").bind fun vx =>
  (parseHdrInt vx).bind fun nxi =>
  (lookupA [h1, h2] "NROWS").bind fun vy =>
  (parseHdrInt vy).bind fun nyi =>
  if nxi < 0 ∨ nyi < 0 then none
  else
    let nx := nxi.toNat
    let ny := nyi.toNat
    let empty : PixGrid := List.replicate ny (List.replicate nx none)
    (parseRecords ny nx (file.drop 3) empty empty []).bind fun r =>
    some (r.1, r.2.1, r.2.2, nx, ny)

/-! ## `update_glacier_mask` -/

/-- Element-wise difference of two 2-D grids (`surf_dem - bed_dem`). -/
def sub2 (a b : List (List Rat)) : List (List Rat) :=
  List.zipWith (fun ra rb => List.zipWith (fun x y => x - y) ra rb) a b

/-- `np.any(diffs < 0)`. -/
def anyNeg (a : List (List Rat)) : Bool :=
  a.any (fun row => row.any (fun d => decide (d < 0)))

/-- The message of the `raise Exception(...)` in `update_glacier_mask`. -/
def updateGlacierMaskMsg : String :=
  "update_glacier_mask: Error: Subtraction of Bed DEM from the output Surface DEM of RGM produced one or more negative values."

/-- `update_glacier_mask(surf_dem, bed_dem, num_rows_dem, num_cols_dem)`:
subtract, raise on any negative difference, else a zero grid of the declared
shape with ones where the difference is strictly positive.  A shape mismatch
between the operands is numpy's broadcast `ValueError`; a mismatch between
the differences and the declared shape is the boolean-mask `IndexError`. -/
def update_glacier_mask (surf_dem bed_dem : List (List Rat))
    (num_rows_dem num_cols_dem : Nat) : Except PyError (List (List Rat)) :=
  if surf_dem.map List.length ≠ bed_dem.map List.length then .error .valueError
  else
    let diffs := sub2 surf_dem bed_dem
    if anyNeg diffs then .error (.exception updateGlacierMaskMsg)
    else if diffs.map List.length ≠ List.replicate num_rows_dem num_cols_dem then
      .error .indexError
    else .ok (diffs.map (fun row => row.map (fun d => if 0 < d then (1 : Rat) else 0)))

/-! ## GSA grid files

A GSA file is a list of lines of typed tokens.  Python's `csv` writer emits
`str(x)` of every value and its reader-side `int`/`float` coercions invert
that exactly, so a numeric token is modelled as the value it denotes. -/

/-- One whitespace-separated token of a GSA file. -/
inductive Token where
  | str : String → Token
  | int : Int → Token
  | num : Rat → Token
deriving DecidableEq, Repr

/-- The text a token denotes. -/
def renderToken : Token → String
  | .str s => s
  | .int n => toString n
  | .num q => toString q

/-- The text of a line, as Python's `readline` sees it. -/
def renderLine (l : List Token) : String :=
  String.intercalate " " (l.map renderToken)

/-- Python `int(token)`. -/
def tokenToInt : Token → Except PyError Int
  | .int n => .ok n
  | .num _ => .error .valueError
  | .str s => match parseInt? s with | some n => .ok n | none => .error .valueError

/-- Python `float(token)`. -/
def tokenToFloat : Token → Except PyError Rat
  | .int n => .ok (n : Rat)
  | .num q => .ok q
  | .str s => match parseDec? s with | some q => .ok q | none => .error .valueError

/-- The checked GSA marker. -/
def dsaaMarker : String := "DSAA"

/-- The message of the failing `assert` in `read_gsa_headers` (the
`dem_file` name interpolation is elided — the model receives contents, not
a path). -/
def gsaAssertMsg : String :=
  "read_gsa_headers: DSAA header on first line of DEM file was not found or is malformed.  DEM file does not conform to ASCII grid format."

/-- What `read_gsa_headers` returns: `out_1 + out_2`, i.e.
`[xmin, xmax, ymin, ymax]` as floats followed by `[num_rows, num_cols]` as
ints. -/
structure GsaHeaders where
  xmin : Rat
  xmax : Rat
  ymin : Rat
  ymax : Rat
  num_rows : Int
  num_cols : Int
deriving DecidableEq, Repr

/-- `read_gsa_headers(dem_file)`: assert the first line starts with `DSAA`,
then unpack `(num_cols, num_rows)`, `(xmin, xmax)`, `(ymin, ymax)` from the
next three lines, coercing extents with `float` and dims with `int`. -/
def read_gsa_headers (file : List (List Token)) : Except PyError GsaHeaders :=
  if strStartsWith (renderLine (file.headD [])) dsaaMarker then
    match (file.drop 1).headD [], (file.drop 2).headD [], (file.drop 3).headD [] with
    | [tc, tr], [txn, txx], [tyn, tyx] => do
      let xmin ← tokenToFloat txn
      let xmax ← tokenToFloat txx
      let ymin ← tokenToFloat tyn
      let ymax ← tokenToFloat tyx
      let nr ← tokenToInt tr
      let nc ← tokenToInt tc
      .ok (GsaHeaders.mk xmin xmax ymin ymax nr nc)
    | _, _, _ => .error .valueError
  else .error (.assertionError gsaAssertMsg)

/-- `write_grid_to_gsa_file(grid, outfilename, num_cols_dem, num_rows_dem,
dem_xmin, dem_xmax, dem_ymin, dem_ymax)`: the produced lines — marker,
declared dims, extents, true value range (`np.min`/`np.max`, which raise on
an empty grid), then the grid rows. -/
def write_grid_to_gsa_file (grid : List (List Rat)) (num_cols_dem num_rows_dem : Int)
    (dem_xmin dem_xmax dem_ymin dem_ymax : Rat) : Except PyError (List (List Token)) :=
  match grid.flatten with
  | [] => .error .valueError
  | v :: vs =>
    .ok ([[Token.str dsaaMarker],
          [Token.int num_cols_dem, Token.int num_rows_dem],
          [Token.num dem_xmin, Token.num dem_xmax],
          [Token.num dem_ymin, Token.num dem_ymax],
          [Token.num (vs.foldl min v), Token.num (vs.foldl max v)]]
         ++ grid.map (fun row => row.map Token.num))

/-! ## The flat VIC state store and the cell/band/HRU hierarchy

The store is the Python `state` dict: variable name to `numpy` array,
indexed `(lat, lon)` for cell-level variables and `(lat, lon, hru)` for
HRU-level ones, with the 1-D `lon` coordinate axis among the entries.  The
hierarchy mirrors the `Cell`/`Band`/`HRU` objects that `read_state` and
`write_state` traverse. -/

/-- A `variables` dict of a `CellState` or `HruState`. -/
abbrev Vars := List (String × Int)

/-- One array of the flat state store: 1-, 2- or 3-dimensional. -/
inductive StoreVal where
  | a1 : List Int → StoreVal
  | a2 : List (List Int) → StoreVal
  | a3 : List (List (List Int)) → StoreVal
deriving DecidableEq, Repr

/-- Python `len(...)` of a store array: the extent of its first axis. -/
def StoreVal.len : StoreVal → Nat
  | .a1 a => a.length
  | .a2 a => a.length
  | .a3 a => a.length

/-- The store's variable dict. -/
abbrev StoreVars := List (String × StoreVal)

/-- The flat state store. -/
structure StateStore where
  vars : StoreVars
deriving DecidableEq, Repr

structure HruState where
  «variables» : Vars
deriving DecidableEq, Repr

structure HRU where
  hru_state : HruState
deriving DecidableEq, Repr

structure Band where
  hru_keys_sorted : List Int
  hrus : List (Int × HRU)
deriving DecidableEq, Repr

structure CellState where
  «variables» : Vars
deriving DecidableEq, Repr

structure Cell where
  cell_state : CellState
  bands : List Band
deriving DecidableEq, Repr

/-- The ordered cell-id-to-`Cell` mapping given to the synchronizers. -/
abbrev Cells := List (String × Cell)

/-- `state[variable][lat][lon]` — a scalar read; indexing a 1-D array twice
or a 3-D array twice (which would yield a slice) is not a scalar. -/
def get2? (sv : StoreVal) (i j : Nat) : Option Int :=
  match sv with
  | .a2 a => a[i]?.bind (fun row => row[j]?)
  | _ => none

/-- `state[variable][lat][lon][hru]` — a scalar read from a 3-D array. -/
def get3? (sv : StoreVal) (i j k : Nat) : Option Int :=
  match sv with
  | .a3 a => (a[i]?.bind (fun p => p[j]?)).bind (fun row => row[k]?)
  | _ => none

/-- `state[variable][lat, lon] = v`: on a 2-D array a scalar store; on a 3-D
array `numpy` broadcasts `v` over the HRU slice; on a 1-D array it is an
`IndexError` (too many indices). -/
def set2? (sv : StoreVal) (i j : Nat) (v : Int) : Option StoreVal :=
  match sv with
  | .a2 a =>
    match a[i]? with
    | some row => if j < row.length then some (.a2 (a.set i (row.set j v))) else none
    | none => none
  | .a3 a =>
    match a[i]? with
    | some p =>
      match p[j]? with
      | some row => some (.a3 (a.set i (p.set j (row.map (fun _ => v)))))
      | none => none
    | none => none
  | .a1 _ => none

/-- `state[variable][lat, lon, hru] = v`: a scalar store into a 3-D array;
fewer axes raise `IndexError`. -/
def set3? (sv : StoreVal) (i j k : Nat) (v : Int) : Option StoreVal :=
  match sv with
  | .a3 a =>
    match a[i]? with
    | some p =>
      match p[j]? with
      | some row => if k < row.length then some (.a3 (a.set i (p.set j (row.set k v)))) else none
      | none => none
    | none => none
  | _ => none

/-- `num_lons = len(state['lon'])`. -/
def numLons? (store : StoreVars) : Option Nat :=
  (lookupA store "lon").map StoreVal.len

/-- The helper defined identically inside `read_state` and `write_state`:
`return count // num_lons, count % num_lons` (Python integer division by
zero raises). -/
def get_2D_cell_indices (num_lons count : Nat) : Option (Nat × Nat) :=
  if num_lons = 0 then none else some (count / num_lons, count % num_lons)

/-! ### `read_state` -/

/-- The cell-variable loop of `read_state`: every declared variable is
replaced by `state[variable][lat][lon]`. -/
def readVars2 (store : StoreVars) (la lo : Nat) : Vars → Option Vars
  | [] => some []
  | p :: rest =>
    (lookupA store p.1).bind fun sv =>
    (get2? sv la lo).bind fun v =>
    (readVars2 store la lo rest).bind fun rest' =>
    some ((p.1, v) :: rest')

/-- The HRU-variable loop of `read_state` at HRU slot `h`. -/
def readVars3 (store : StoreVars) (la lo h : Nat) : Vars → Option Vars
  | [] => some []
  | p :: rest =>
    (lookupA store p.1).bind fun sv =>
    (get3? sv la lo h).bind fun v =>
    (readVars3 store la lo h rest).bind fun rest' =>
    some ((p.1, v) :: rest')

/-- The `for hru_veg_type in band.hru_keys_sorted` loop of `read_state`:
look each key up in `band.hrus`, refresh its `hru_state` from the store at
the running slot `h`, and increment `h`. -/
def readHrus (store : StoreVars) (la lo : Nat) :
    List Int → List (Int × HRU) → Nat → Option (List (Int × HRU) × Nat)
  | [], hrus, h => some (hrus, h)
  | k :: ks, hrus, h =>
    (lookupA hrus k).bind fun hru =>
    (readVars3 store la lo h hru.hru_state.variables).bind fun vs =>
    readHrus store la lo ks (setA hrus k (HRU.mk (HruState.mk vs))) (h + 1)

/-- The `for band in cell.bands` loop of `read_state`, threading the running
HRU slot `h` across the cell's bands. -/
def readBands (store : StoreVars) (la lo : Nat) :
    List Band → Nat → Option (List Band × Nat)
  | [], h => some ([], h)
  | b :: bs, h =>
    (readHrus store la lo b.hru_keys_sorted b.hrus h).bind fun r =>
    (readBands store la lo bs r.2).bind fun r' =>
    some (Band.mk b.hru_keys_sorted r.1 :: r'.1, r'.2)

/-- The `for cell_id, cell in cells.items()` loop of `read_state`: the cell
at linear index `cell_idx` is addressed at
`get_2D_cell_indices(cell_idx)`; its cell variables are read first, then
its bands with the HRU slot restarting at 0. -/
def readCells (store : StoreVars) (num_lons : Nat) :
    Cells → Nat → Option Cells
  | [], _ => some []
  | c :: rest, cell_idx =>
    (get_2D_cell_indices num_lons cell_idx).bind fun idx =>
    (readVars2 store idx.1 idx.2 c.2.cell_state.variables).bind fun cvs =>
    (readBands store idx.1 idx.2 c.2.bands 0).bind fun br =>
    (readCells store num_lons rest (cell_idx + 1)).bind fun rest' =>
    some ((c.1, Cell.mk (CellState.mk cvs) br.1) :: rest')

/-- `read_state(state, cells)`: pull the store into the hierarchy.  The
result pairs the updated cells with the store after the call — the source
performs no store write, so that store is the input one. -/
def read_state (state : StateStore) (cells : Cells) : Option (Cells × StateStore) :=
  (numLons? state.vars).bind fun nl =>
  (readCells state.vars nl cells 0).bind fun cs =>
  some (cs, state)

/-! ### `write_state` -/

/-- The cell-variable loop of `write_state`:
`state[variable][lat, lon] = cell.cell_state.variables[variable]`. -/
def writeVars2 (store : StoreVars) (la lo : Nat) : Vars → Option StoreVars
  | [] => some store
  | p :: rest =>
    (lookupA store p.1).bind fun sv =>
    (set2? sv la lo p.2).bind fun sv' =>
    writeVars2 (setA store p.1 sv') la lo rest

/-- The HRU-variable loop of `write_state` at HRU slot `h`. -/
def writeVars3 (store : StoreVars) (la lo h : Nat) : Vars → Option StoreVars
  | [] => some store
  | p :: rest =>
    (lookupA store p.1).bind fun sv =>
    (set3? sv la lo h p.2).bind fun sv' =>
    writeVars3 (setA store p.1 sv') la lo h rest

/-- The `for hru_veg_type in band.hru_keys_sorted` loop of `write_state`. -/
def writeHrus (la lo : Nat) (hrus : List (Int × HRU)) :
    StoreVars → List Int → Nat → Option (StoreVars × Nat)
  | store, [], h => some (store, h)
  | store, k :: ks, h =>
    (lookupA hrus k).bind fun hru =>
    (writeVars3 store la lo h hru.hru_state.variables).bind fun store' =>
    writeHrus la lo hrus store' ks (h + 1)

/-- The `for band in cell.bands` loop of `write_state`. -/
def writeBands (la lo : Nat) :
    StoreVars → List Band → Nat → Option (StoreVars × Nat)
  | store, [], h => some (store, h)
  | store, b :: bs, h =>
    (writeHrus la lo b.hrus store b.hru_keys_sorted h).bind fun r =>
    writeBands la lo r.1 bs r.2

/-- The `for cell_id, cell in cells.items()` loop of `write_state`, with the
same linear-index-to-(lat, lon) addressing as `read_state`. -/
def writeCells (num_lons : Nat) :
    StoreVars → Cells → Nat → Option StoreVars
  | store, [], _ => some store
  | store, c :: rest, cell_idx =>
    (get_2D_cell_indices num_lons cell_idx).bind fun idx =>
    (writeVars2 store idx.1 idx.2 c.2.cell_state.variables).bind fun store1 =>
    (writeBands idx.1 idx.2 store1 c.2.bands 0).bind fun r =>
    writeCells num_lons r.1 rest (cell_idx + 1)

/-- `write_state(state, cells)`: push the hierarchy into the store. -/
def write_state (state : StateStore) (cells : Cells) : Option StateStore :=
  (numLons? state.vars).bind fun nl =>
  (writeCells nl state.vars cells 0).bind fun vs =>
  some (StateStore.mk vs)

/-! ## Derived notions used to state the claims -/

/-- Zero every store array elementwise. -/
def StoreVal.zeroed : StoreVal → StoreVal
  | .a1 a => .a1 (a.map (fun _ => 0))
  | .a2 a => .a2 (a.map (fun row => row.map (fun _ => 0)))
  | .a3 a => .a3 (a.map (fun p => p.map (fun row => row.map (fun _ => 0))))

/-- A freshly zeroed store of identical shape: every state variable zeroed,
the `lon` coordinate axis kept (it carries geometry, not state, and fixes
`num_lons`). -/
def zeroExceptLon (store : StoreVars) : StoreVars :=
  store.map (fun p => if p.1 = "lon" then p else (p.1, p.2.zeroed))

/-- Total number of HRUs of a cell: the bands' `hru_keys_sorted` lengths
summed — the number of HRU visits the synchronizers make for the cell, and
the final value of its running `cell_hru_idx`. -/
def totalHrus (c : Cell) : Nat :=
  (c.bands.map (fun b => b.hru_keys_sorted.length)).sum

/-- The HRU slot at which band `bi` of a cell starts: the HRUs of the
earlier bands. -/
def bandsOffset (bands : List Band) (bi : Nat) : Nat :=
  ((bands.take bi).map (fun b => b.hru_keys_sorted.length)).sum

/-- A 2-D array has `r` rows of `c` entries. -/
def shape2 (a : List (List Int)) (r c : Nat) : Prop :=
  a.length = r ∧ ∀ row ∈ a, row.length = c

/-- A 3-D array has extents `r × c × k`. -/
def shape3 (a : List (List (List Int))) (r c k : Nat) : Prop :=
  a.length = r ∧ ∀ p ∈ a, p.length = c ∧ ∀ row ∈ p, row.length = k

/-- The value `read_state` copies for a cell-level variable (with a default
where the code would instead have failed). -/
def sval2 (store : StoreVars) (n : String) (la lo : Nat) : Int :=
  match lookupA store n with
  | some (.a2 a) => (a.getD la []).getD lo 0
  | _ => 0

/-- The value `read_state` copies for an HRU-level variable at slot `h`. -/
def sval3 (store : StoreVars) (n : String) (la lo h : Nat) : Int :=
  match lookupA store n with
  | some (.a3 a) => ((a.getD la []).getD lo []).getD h 0
  | _ => 0

/-- What a `variables` dict holds after the cell-variable loop of
`read_state`. -/
def specVars2 (store : StoreVars) (la lo : Nat) (vs : Vars) : Vars :=
  vs.map (fun p => (p.1, sval2 store p.1 la lo))

/-- What a `variables` dict holds after the HRU-variable loop of
`read_state` at slot `h`. -/
def specVars3 (store : StoreVars) (la lo h : Nat) (vs : Vars) : Vars :=
  vs.map (fun p => (p.1, sval3 store p.1 la lo h))

/-- What `band.hrus` holds after `read_state` walked `keys` starting at
slot `h`. -/
def specHrus (store : StoreVars) (la lo : Nat) :
    List Int → List (Int × HRU) → Nat → List (Int × HRU)
  | [], hrus, _ => hrus
  | k :: ks, hrus, h =>
    match lookupA hrus k with
    | none => hrus
    | some hru =>
      specHrus store la lo ks
        (setA hrus k (HRU.mk (HruState.mk (specVars3 store la lo h hru.hru_state.variables))))
        (h + 1)

/-- What `cell.bands` holds after `read_state`, starting at slot `h`. -/
def specBands (store : StoreVars) (la lo : Nat) : List Band → Nat → List Band
  | [], _ => []
  | b :: bs, h =>
    Band.mk b.hru_keys_sorted (specHrus store la lo b.hru_keys_sorted b.hrus h)
      :: specBands store la lo bs (h + b.hru_keys_sorted.length)

/-- What the whole cell mapping holds after `read_state`, the head cell
having linear index `i`. -/
def specCells (store : StoreVars) (num_lons : Nat) : Cells → Nat → Cells
  | [], _ => []
  | c :: rest, i =>
    (c.1, Cell.mk
        (CellState.mk (specVars2 store (i / num_lons) (i % num_lons) c.2.cell_state.variables))
        (specBands store (i / num_lons) (i % num_lons) c.2.bands 0))
      :: specCells store num_lons rest (i + 1)

/-- Store shape discipline for the synchronizer round trip: distinct
variable names; a 1-D `lon` axis of positive length `L`; every other
variable 2-D of shape `R × L` or 3-D of shape `R × L × K`. -/
def StoreWF (store : StoreVars) (L R K : Nat) : Prop :=
  (store.map Prod.fst).Nodup ∧
  (∃ a, lookupA store "lon" = some (.a1 a) ∧ a.length = L) ∧
  0 < L ∧
  ∀ p ∈ store, p.1 = "lon" ∨
    (∃ a, p.2 = StoreVal.a2 a ∧ shape2 a R L) ∨
    (∃ a, p.2 = StoreVal.a3 a ∧ shape3 a R L K)

/-- A cell mirrors the store: its `CellState` declares exactly the 2-D
variable names; every band key resolves to an HRU declaring exactly the
3-D variable names; keys are distinct within a band; the cell visits `K`
HRUs in total. -/
def CellWF (store : StoreVars) (K : Nat) (c : Cell) : Prop :=
  (c.cell_state.variables.map Prod.fst).Nodup ∧
  (∀ n, (∃ v, (n, v) ∈ c.cell_state.variables) ↔ ∃ a, lookupA store n = some (StoreVal.a2 a)) ∧
  (∀ b ∈ c.bands, b.hru_keys_sorted.Nodup ∧
    ∀ k ∈ b.hru_keys_sorted, ∃ hru, lookupA b.hrus k = some hru ∧
      (hru.hru_state.variables.map Prod.fst).Nodup ∧
      (∀ n, (∃ v, (n, v) ∈ hru.hru_state.variables) ↔
        ∃ a, lookupA store n = some (StoreVal.a3 a))) ∧
  totalHrus c = K

/-- The cell mapping tiles the store's `R × L` cell grid and every cell
mirrors the store. -/
def CellsWF (store : StoreVars) (L R K : Nat) (cells : Cells) : Prop :=
  cells.length = R * L ∧ ∀ p ∈ cells, CellWF store K p.2

/-- The state of a 2-D store array mid-way through the write-back pass:
entries of cells with flat index below `m` already carry the reference
array's values, the rest are still zero. -/
def Inv2At (a b : List (List Int)) (L m : Nat) : Prop :=
  b.length = a.length ∧ (∀ x, (b.getD x []).length = (a.getD x []).length) ∧
  ∀ x y, x < a.length → y < (a.getD x []).length →
    (b.getD x []).getD y 0 = if x * L + y < m then (a.getD x []).getD y 0 else 0

/-- The state of a 3-D store array mid-way through the write-back pass, at
whole-cell granularity. -/
def Inv3At (a b : List (List (List Int))) (L m : Nat) : Prop :=
  b.length = a.length ∧ (∀ x, (b.getD x []).length = (a.getD x []).length) ∧
  (∀ x y, ((b.getD x []).getD y []).length = ((a.getD x []).getD y []).length) ∧
  ∀ x y z, x < a.length → y < (a.getD x []).length →
    z < ((a.getD x []).getD y []).length →
    ((b.getD x []).getD y []).getD z 0
      = if x * L + y < m then ((a.getD x []).getD y []).getD z 0 else 0

/-- The state of a 3-D store array while the cell with flat index `m` is
being written: earlier cells complete, and of the current cell's HRU row
the slots below `h` are already written. -/
def Inv3Mid (a b : List (List (List Int))) (L m h : Nat) : Prop :=
  b.length = a.length ∧ (∀ x, (b.getD x []).length = (a.getD x []).length) ∧
  (∀ x y, ((b.getD x []).getD y []).length = ((a.getD x []).getD y []).length) ∧
  ∀ x y z, x < a.length → y < (a.getD x []).length →
    z < ((a.getD x []).getD y []).length →
    ((b.getD x []).getD y []).getD z 0
      = if x * L + y < m ∨ (x * L + y = m ∧ z < h)
        then ((a.getD x []).getD y []).getD z 0 else 0

/-- Write-back invariant between cells: the store being written has the
reference store's keys, its `lon` axis, every 2-D variable at `Inv2At m`
and every 3-D variable at `Inv3At m`. -/
def WInv (S W : StoreVars) (L m : Nat) : Prop :=
  W.map Prod.fst = S.map Prod.fst ∧
  lookupA W "lon" = lookupA S "lon" ∧
  (∀ n a, lookupA S n = some (StoreVal.a2 a) →
    ∃ b, lookupA W n = some (StoreVal.a2 b) ∧ Inv2At a b L m) ∧
  (∀ n a, lookupA S n = some (StoreVal.a3 a) →
    ∃ b, lookupA W n = some (StoreVal.a3 b) ∧ Inv3At a b L m)

/-- Write-back invariant inside cell `m`, after its cell-level variables
and the HRU slots below `h`. -/
def WInvMid (S W : StoreVars) (L m h : Nat) : Prop :=
  W.map Prod.fst = S.map Prod.fst ∧
  lookupA W "lon" = lookupA S "lon" ∧
  (∀ n a, lookupA S n = some (StoreVal.a2 a) →
    ∃ b, lookupA W n = some (StoreVal.a2 b) ∧ Inv2At a b L (m + 1)) ∧
  (∀ n a, lookupA S n = some (StoreVal.a3 a) →
    ∃ b, lookupA W n = some (StoreVal.a3 b) ∧ Inv3Mid a b L m h)

/-! # Lemmas and theorems -/

/-! ## Generic list and shape lemmas -/

theorem getD_eq_getElem' {α : Type} {l : List α} {i : Nat} (d : α) (h : i < l.length) :
    l.getD i d = l[i] := by
  simp [List.getD_eq_getElem?_getD, List.getElem?_eq_getElem h]

theorem shape_len {α : Type} {l : List (List α)} {nr nc : Nat}
    (h : l.map List.length = List.replicate nr nc) : l.length = nr := by
  have h' := congrArg List.length h
  simpa using h'

theorem shape_row {α : Type} {l : List (List α)} {nr nc : Nat}
    (h : l.map List.length = List.replicate nr nc) {i : Nat} (hi : i < nr) :
    (l.getD i []).length = nc := by
  have hl : l.length = nr := shape_len h
  have h1 : (l.map List.length)[i]? = (List.replicate nr nc)[i]? := by rw [h]
  rw [List.getElem?_map, List.getElem?_replicate, if_pos hi] at h1
  have hi' : i < l.length := by omega
  rw [List.getElem?_eq_getElem hi'] at h1
  simp only [Option.map_some'] at h1
  rw [getD_eq_getElem' [] hi']
  exact Option.some.inj h1

/-! ## `update_glacier_mask`: C5 and C6 -/

theorem zipSub_getD {r s : List Rat} {j : Nat} (hr : s.length = r.length) (hj : j < r.length) :
    (List.zipWith (fun x y => x - y) r s).getD j 0 = r.getD j 0 - s.getD j 0 := by
  induction r generalizing s j with
  | nil => cases hj
  | cons a as ih =>
    cases s with
    | nil => simp at hr
    | cons b bs =>
      cases j with
      | zero => simp
      | succ j =>
        have hr' : bs.length = as.length := by simpa using hr
        have hj' : j < as.length := by simpa using hj
        simpa using ih hr' hj'

theorem sub2_map_length {a b : List (List Rat)} (h : a.map List.length = b.map List.length) :
    (sub2 a b).map List.length = a.map List.length := by
  induction a generalizing b with
  | nil => simp [sub2]
  | cons r rs ih =>
    cases b with
    | nil => simp at h
    | cons s ss =>
      simp only [List.map_cons, List.cons.injEq] at h
      simp only [sub2, List.zipWith_cons_cons, List.map_cons, List.cons.injEq]
      constructor
      · rw [List.length_zipWith]; omega
      · exact ih h.2

theorem sub2_getD {a b : List (List Rat)} {i j : Nat}
    (h : a.map List.length = b.map List.length) (hi : i < a.length)
    (hj : j < (a.getD i []).length) :
    ((sub2 a b).getD i []).getD j 0 = (a.getD i []).getD j 0 - (b.getD i []).getD j 0 := by
  induction a generalizing b i with
  | nil => cases hi
  | cons r rs ih =>
    cases b with
    | nil => simp at h
    | cons s ss =>
      simp only [List.map_cons, List.cons.injEq] at h
      cases i with
      | zero =>
        simp only [sub2, List.zipWith_cons_cons, List.getD_cons_zero] at hj ⊢
        exact zipSub_getD h.1.symm hj
      | succ i =>
        simp only [sub2, List.zipWith_cons_cons, List.getD_cons_succ] at hj ⊢
        exact ih h.2 (by simpa using hi) hj

theorem anyNeg_iff {d : List (List Rat)} {nr nc : Nat}
    (h : d.map List.length = List.replicate nr nc) :
    anyNeg d = true ↔ ∃ i j, i < nr ∧ j < nc ∧ (d.getD i []).getD j 0 < 0 := by
  have hl : d.length = nr := shape_len h
  unfold anyNeg
  rw [List.any_eq_true]
  constructor
  · rintro ⟨row, hrow, hneg⟩
    rw [List.any_eq_true] at hneg
    obtain ⟨x, hx, hx0⟩ := hneg
    obtain ⟨i, hi, hieq⟩ := List.mem_iff_getElem.1 hrow
    obtain ⟨j, hj, hjeq⟩ := List.mem_iff_getElem.1 hx
    have hinr : i < nr := by omega
    refine ⟨i, j, hinr, ?_, ?_⟩
    · have := shape_row h hinr
      rw [getD_eq_getElem' [] hi, hieq] at this
      omega
    · rw [getD_eq_getElem' [] hi, hieq, getD_eq_getElem' 0 hj, hjeq]
      exact of_decide_eq_true hx0
  · rintro ⟨i, j, hi, hj, hneg⟩
    have hi' : i < d.length := by omega
    have hrl : (d.getD i []).length = nc := shape_row h hi
    have hj' : j < (d.getD i []).length := by omega
    refine ⟨d.getD i [], ?_, ?_⟩
    · rw [getD_eq_getElem' [] hi']; exact List.getElem_mem hi'
    · rw [List.any_eq_true]
      refine ⟨(d.getD i []).getD j 0, ?_, by simpa using hneg⟩
      rw [getD_eq_getElem' 0 hj']
      exact List.getElem_mem hj'

/-- C5.  For same-shaped `surface` and `bed` grids of the given declared
shape whose element-wise difference is everywhere non-negative,
`update_glacier_mask` returns a grid of that shape whose every entry is 1
where the difference is strictly positive and 0 elsewhere (in particular 0
where the difference is exactly zero). -/
theorem update_glacier_mask_ok (surf bed : List (List Rat)) (nr nc : Nat)
    (hs : surf.map List.length = List.replicate nr nc)
    (hb : bed.map List.length = List.replicate nr nc)
    (hnneg : ∀ i j, i < nr → j < nc →
      0 ≤ (surf.getD i []).getD j 0 - (bed.getD i []).getD j 0) :
    ∃ m, update_glacier_mask surf bed nr nc = .ok m ∧
      m.map List.length = List.replicate nr nc ∧
      ∀ i j, i < nr → j < nc →
        (m.getD i []).getD j 0 =
          if 0 < (surf.getD i []).getD j 0 - (bed.getD i []).getD j 0 then 1 else 0 := by
  have hsb : surf.map List.length = bed.map List.length := hs.trans hb.symm
  have hdshape : (sub2 surf bed).map List.length = List.replicate nr nc :=
    (sub2_map_length hsb).trans hs
  have hdentry : ∀ i j, i < nr → j < nc →
      ((sub2 surf bed).getD i []).getD j 0 =
        (surf.getD i []).getD j 0 - (bed.getD i []).getD j 0 := by
    intro i j hi hj
    exact sub2_getD hsb (by rw [shape_len hs]; exact hi) (by rw [shape_row hs hi]; exact hj)
  have hnoneg : anyNeg (sub2 surf bed) = false := by
    by_contra hcon
    have : anyNeg (sub2 surf bed) = true := by
      cases hone : anyNeg (sub2 surf bed) with
      | true => rfl
      | false => exact absurd hone hcon
    obtain ⟨i, j, hi, hj, hx⟩ := (anyNeg_iff hdshape).1 this
    have := hnneg i j hi hj
    rw [hdentry i j hi hj] at hx
    linarith
  refine ⟨(sub2 surf bed).map (fun row => row.map (fun d => if 0 < d then (1 : Rat) else 0)),
    ?_, ?_, ?_⟩
  · simp only [update_glacier_mask]
    rw [if_neg (by rw [hsb]; exact fun hc => hc rfl)]
    simp only [hnoneg, Bool.false_eq_true, if_false]
    rw [if_neg (by rw [hdshape]; exact fun hc => hc rfl)]
  · rw [List.map_map]
    have : (List.length ∘ fun row : List Rat => row.map (fun d => if 0 < d then (1 : Rat) else 0))
        = List.length := by
      funext row; simp
    rw [this, hdshape]
  · intro i j hi hj
    have hi' : i < (sub2 surf bed).length := by rw [shape_len hdshape]; exact hi
    have hj' : j < ((sub2 surf bed).getD i []).length := by rw [shape_row hdshape hi]; exact hj
    have e1 : (sub2 surf bed).getD i [] = (sub2 surf bed)[i] := getD_eq_getElem' [] hi'
    have hj2 : j < ((sub2 surf bed)[i]).length := by rw [← e1]; exact hj'
    have hmi :
        i < ((sub2 surf bed).map
          (fun row => row.map (fun d => if 0 < d then (1 : Rat) else 0))).length := by
      simpa using hi'
    rw [getD_eq_getElem' [] hmi, List.getElem_map]
    have hjm : j < (((sub2 surf bed)[i]).map (fun d => if 0 < d then (1 : Rat) else 0)).length := by
      simpa using hj2
    rw [getD_eq_getElem' 0 hjm, List.getElem_map]
    have e3 : ((sub2 surf bed).getD i []).getD j 0 = (sub2 surf bed)[i][j] := by
      rw [e1, getD_eq_getElem' 0 hj2]
    rw [show (sub2 surf bed)[i][j] = (surf.getD i []).getD j 0 - (bed.getD i []).getD j 0 from
      e3 ▸ hdentry i j hi hj]

/-- C6.  On same-shaped inputs of the declared shape, `update_glacier_mask`
fails exactly when some difference entry is negative; the failure is the
labelled physical-inconsistency `Exception`, which is distinguishable from
the `AssertionError` used for format violations. -/
theorem update_glacier_mask_err (surf bed : List (List Rat)) (nr nc : Nat)
    (hs : surf.map List.length = List.replicate nr nc)
    (hb : bed.map List.length = List.replicate nr nc) :
    (update_glacier_mask surf bed nr nc = .error (.exception updateGlacierMaskMsg) ↔
      ∃ i j, i < nr ∧ j < nc ∧
        (surf.getD i []).getD j 0 - (bed.getD i []).getD j 0 < 0) ∧
    (∀ e, update_glacier_mask surf bed nr nc = .error e →
      e = .exception updateGlacierMaskMsg) ∧
    (∀ s, PyError.exception updateGlacierMaskMsg ≠ PyError.assertionError s) := by
  have hsb : surf.map List.length = bed.map List.length := hs.trans hb.symm
  have hdshape : (sub2 surf bed).map List.length = List.replicate nr nc :=
    (sub2_map_length hsb).trans hs
  have hdentry : ∀ i j, i < nr → j < nc →
      ((sub2 surf bed).getD i []).getD j 0 =
        (surf.getD i []).getD j 0 - (bed.getD i []).getD j 0 := by
    intro i j hi hj
    exact sub2_getD hsb (by rw [shape_len hs]; exact hi) (by rw [shape_row hs hi]; exact hj)
  have hneg_iff : anyNeg (sub2 surf bed) = true ↔
      ∃ i j, i < nr ∧ j < nc ∧
        (surf.getD i []).getD j 0 - (bed.getD i []).getD j 0 < 0 := by
    rw [anyNeg_iff hdshape]
    constructor
    · rintro ⟨i, j, hi, hj, hx⟩
      exact ⟨i, j, hi, hj, by rw [← hdentry i j hi hj]; exact hx⟩
    · rintro ⟨i, j, hi, hj, hx⟩
      exact ⟨i, j, hi, hj, by rw [hdentry i j hi hj]; exact hx⟩
  have hgate1 : ¬ surf.map List.length ≠ bed.map List.length := fun hc => hc hsb
  refine ⟨?_, ?_, ?_⟩
  · constructor
    · intro herr
      unfold update_glacier_mask at herr
      rw [if_neg hgate1] at herr
      by_cases hneg : anyNeg (sub2 surf bed) = true
      · exact hneg_iff.1 hneg
      · rw [if_neg (by simpa using hneg)] at herr
        rw [if_neg (fun hc => hc hdshape)] at herr
        cases herr
    · intro hex
      unfold update_glacier_mask
      rw [if_neg hgate1, if_pos (hneg_iff.2 hex)]
  · intro e herr
    unfold update_glacier_mask at herr
    rw [if_neg hgate1] at herr
    by_cases hneg : anyNeg (sub2 surf bed) = true
    · rw [if_pos hneg] at herr
      exact (Except.error.inj herr).symm
    · rw [if_neg (by simpa using hneg), if_neg (fun hc => hc hdshape)] at herr
      cases herr
  · intro s hc
    cases hc

/-- Witness for C5 at a concrete input with both positive and zero
differences. -/
theorem update_glacier_mask_ok_witness :
    (([[3, 1], [2, 5]] : List (List Rat)).map List.length = List.replicate 2 2) ∧
    (([[1, 1], [0, 5]] : List (List Rat)).map List.length = List.replicate 2 2) ∧
    (∀ i j, i < 2 → j < 2 →
      0 ≤ (([[3, 1], [2, 5]] : List (List Rat)).getD i []).getD j 0 -
        (([[1, 1], [0, 5]] : List (List Rat)).getD i []).getD j 0) ∧
    ∃ m, update_glacier_mask [[3, 1], [2, 5]] [[1, 1], [0, 5]] 2 2 = .ok m ∧
      m.map List.length = List.replicate 2 2 ∧
      ∀ i j, i < 2 → j < 2 →
        (m.getD i []).getD j 0 =
          if 0 < (([[3, 1], [2, 5]] : List (List Rat)).getD i []).getD j 0 -
              (([[1, 1], [0, 5]] : List (List Rat)).getD i []).getD j 0 then 1 else 0 :=
  ⟨by decide, by decide,
   by intro i j hi hj; interval_cases i <;> interval_cases j <;> norm_num,
   update_glacier_mask_ok [[3, 1], [2, 5]] [[1, 1], [0, 5]] 2 2 (by decide) (by decide)
     (by intro i j hi hj; interval_cases i <;> interval_cases j <;> norm_num)⟩

/-- Witness for C6 at a concrete input with a negative difference. -/
theorem update_glacier_mask_err_witness :
    (([[0]] : List (List Rat)).map List.length = List.replicate 1 1) ∧
    (([[1]] : List (List Rat)).map List.length = List.replicate 1 1) ∧
    ((update_glacier_mask [[0]] [[1]] 1 1 = .error (.exception updateGlacierMaskMsg) ↔
      ∃ i j, i < 1 ∧ j < 1 ∧
        (([[0]] : List (List Rat)).getD i []).getD j 0 -
          (([[1]] : List (List Rat)).getD i []).getD j 0 < 0) ∧
    (∀ e, update_glacier_mask [[0]] [[1]] 1 1 = .error e →
      e = .exception updateGlacierMaskMsg) ∧
    (∀ s, PyError.exception updateGlacierMaskMsg ≠ PyError.assertionError s)) :=
  ⟨by decide, by decide,
   update_glacier_mask_err [[0]] [[1]] 1 1 (by decide) (by decide)⟩

/-! ## GSA headers: C8 and C7 -/

/-- C8.  A GSA file whose first line does not start with the `DSAA` marker
makes `read_gsa_headers` fail with the descriptive assertion error; no
(partially parsed) result is ever returned for it. -/
theorem read_gsa_headers_reject (file : List (List Token))
    (h : strStartsWith (renderLine (file.headD [])) dsaaMarker = false) :
    read_gsa_headers file = .error (.assertionError gsaAssertMsg) ∧
    ∀ hdr, read_gsa_headers file ≠ .ok hdr := by
  have herr : read_gsa_headers file = .error (.assertionError gsaAssertMsg) := by
    unfold read_gsa_headers
    rw [h]
    simp
  exact ⟨herr, fun hdr hc => by rw [herr] at hc; cases hc⟩

/-- Witness for C8: a file whose first line reads `XXXX 3`. -/
theorem read_gsa_headers_reject_witness :
    strStartsWith (renderLine ([[Token.str "XXXX", Token.int 3]].headD [])) dsaaMarker = false ∧
    read_gsa_headers [[Token.str "XXXX", Token.int 3]]
      = .error (.assertionError gsaAssertMsg) ∧
    ∀ hdr, read_gsa_headers [[Token.str "XXXX", Token.int 3]] ≠ .ok hdr :=
  ⟨by decide, read_gsa_headers_reject [[Token.str "XXXX", Token.int 3]] (by decide)⟩

/-- C7.  Writing any grid of positive dimensions with declared dims and
extents, then reading the produced file back, returns exactly the supplied
extents `(xmin, xmax, ymin, ymax)` and dims `(num_rows, num_cols)`. -/
theorem gsa_round_trip (grid : List (List Rat)) (num_cols_dem num_rows_dem : Int)
    (xmin xmax ymin ymax : Rat)
    (h1 : grid ≠ []) (h2 : ∀ r ∈ grid, r ≠ []) :
    (write_grid_to_gsa_file grid num_cols_dem num_rows_dem xmin xmax ymin ymax).bind
        read_gsa_headers
      = .ok (GsaHeaders.mk xmin xmax ymin ymax num_rows_dem num_cols_dem) := by
  obtain ⟨v, vs, hf⟩ : ∃ v vs, grid.flatten = v :: vs := by
    cases grid with
    | nil => exact absurd rfl h1
    | cons r rest =>
      cases hr : r with
      | nil => exact absurd hr (h2 r (by simp))
      | cons x xs => exact ⟨x, xs ++ rest.flatten, by simp [hr]⟩
  have hmark : strStartsWith (renderLine [Token.str dsaaMarker]) dsaaMarker = true := by decide
  simp only [write_grid_to_gsa_file, hf]
  show read_gsa_headers _ = _
  unfold read_gsa_headers
  rw [show ([[Token.str dsaaMarker],
        [Token.int num_cols_dem, Token.int num_rows_dem],
        [Token.num xmin, Token.num xmax],
        [Token.num ymin, Token.num ymax],
        [Token.num (vs.foldl min v), Token.num (vs.foldl max v)]]
       ++ grid.map (fun row => row.map Token.num)).headD [] = [Token.str dsaaMarker] from rfl]
  rw [hmark]
  simp only [if_true]
  rfl

/-- Witness for C7 at a concrete one-by-one grid. -/
theorem gsa_round_trip_witness :
    (([[(5 : Rat)]] : List (List Rat)) ≠ []) ∧
    (∀ r ∈ ([[(5 : Rat)]] : List (List Rat)), r ≠ []) ∧
    (write_grid_to_gsa_file [[(5 : Rat)]] 1 1 0 2 0 3).bind read_gsa_headers
      = .ok (GsaHeaders.mk 0 2 0 3 1 1) :=
  ⟨by decide, by decide,
   gsa_round_trip [[(5 : Rat)]] 1 1 0 2 0 3 (by decide) (by decide)⟩

/-! ## Pixel mapping: C9 -/

theorem bumpArea_sum (m : List (String × Nat)) (k : String) :
    ((bumpArea m k).map Prod.snd).sum = (m.map Prod.snd).sum + 1 := by
  induction m with
  | nil => simp [bumpArea]
  | cons p ps ih =>
    by_cases h : p.1 = k
    · simp only [bumpArea, if_pos h, List.map_cons, List.sum_cons]
      omega
    · simp only [bumpArea, if_neg h, List.map_cons, List.sum_cons, ih]
      omega

/-- Each record line bumps exactly one `cell_areas` bucket by one, so a
completed record pass adds the record count to the bucket total. -/
theorem parseRecords_sum {ny nx : Nat} :
    ∀ (recs : List (List String)) (cm zm : PixGrid) (acc : List (String × Nat)) r,
      parseRecords ny nx recs cm zm acc = some r →
      (r.2.2.map Prod.snd).sum = (acc.map Prod.snd).sum + recs.length := by
  intro recs
  induction recs with
  | nil =>
    intro cm zm acc r h
    simp only [parseRecords, Option.some.injEq] at h
    subst h
    simp
  | cons line rest ih =>
    intro cm zm acc r h
    rcases line with _ | ⟨f0, line⟩
    · simp [parseRecords] at h
    rcases line with _ | ⟨si, line⟩
    · simp [parseRecords] at h
    rcases line with _ | ⟨sj, line⟩
    · simp [parseRecords] at h
    rcases line with _ | ⟨f3, line⟩
    · simp [parseRecords] at h
    rcases line with _ | ⟨selev, line⟩
    · simp [parseRecords] at h
    rcases line with _ | ⟨cid, line⟩
    · simp [parseRecords] at h
    rcases line with _ | ⟨x, line⟩
    case cons.cons => simp [parseRecords] at h
    simp only [parseRecords, Option.bind_eq_some] at h
    obtain ⟨i, hi, j, hj, h⟩ := h
    by_cases hna : cid = "NA"
    · rw [if_pos hna] at h
      have := ih _ _ _ _ h
      rw [this, bumpArea_sum]
      simp
      omega
    · rw [if_neg hna] at h
      simp only [Option.bind_eq_some] at h
      obtain ⟨ii, hii, jj, hjj, cv, hcv, zv, hzv, h⟩ := h
      have := ih _ _ _ _ h
      rw [this, bumpArea_sum]
      simp
      omega

/-- C9.  If the pixel-map parser completes and the file holds one record
line per pixel of the declared `NCOLS × NROWS` raster, then the
`cell_pixel_counts` values — the `"NA"` bucket included — sum to
`nx * ny`. -/
theorem pixel_mapping_sum (file : List (List String))
    (cm zm : PixGrid) (areas : List (String × Nat)) (nx ny : Nat)
    (h : get_rgm_pixel_mapping file = some (cm, zm, areas, nx, ny))
    (hr : (file.drop 3).length = nx * ny) :
    (areas.map Prod.snd).sum = nx * ny := by
  simp only [get_rgm_pixel_mapping, Option.bind_eq_some] at h
  obtain ⟨h1, hh1, h2, hh2, vx, hvx, nxi, hnxi, vy, hvy, nyi, hnyi, hrest⟩ := h
  by_cases hneg : nxi < 0 ∨ nyi < 0
  · rw [if_pos hneg] at hrest
    cases hrest
  · rw [if_neg hneg] at hrest
    simp only [Option.bind_eq_some, Option.some.injEq] at hrest
    obtain ⟨r, hrec, hout⟩ := hrest
    have hareas : r.2.2 = areas := by
      have := congrArg (fun q : PixGrid × PixGrid × List (String × Nat) × Nat × Nat =>
        q.2.2.1) hout
      simpa using this
    have := parseRecords_sum _ _ _ _ _ hrec
    rw [hareas] at this
    simpa [hr] using this

/-- Witness for C9: a 2-by-2 mapping file with two `"NA"` pixels. -/
theorem pixel_mapping_sum_witness :
    get_rgm_pixel_mapping
        [["NCOLS", "2"], ["NROWS", "2"], ["hdrs"],
         ["p", "0", "0", "b", "10", "55"], ["p", "0", "1", "b", "11", "NA"],
         ["p", "1", "0", "b", "12", "55"], ["p", "1", "1", "b", "13", "NA"]]
      = some ([[some 55, none], [some 55, none]], [[some 10, none], [some 12, none]],
          [("55", 2), ("NA", 2)], 2, 2) ∧
    (([["NCOLS", "2"], ["NROWS", "2"], ["hdrs"],
       ["p", "0", "0", "b", "10", "55"], ["p", "0", "1", "b", "11", "NA"],
       ["p", "1", "0", "b", "12", "55"],
       ["p", "1", "1", "b", "13", "NA"]] : List (List String)).drop 3).length = 2 * 2 ∧
    (([("55", 2), ("NA", 2)] : List (String × Nat)).map Prod.snd).sum = 2 * 2 :=
  ⟨by decide, by decide,
   pixel_mapping_sum
     [["NCOLS", "2"], ["NROWS", "2"], ["hdrs"],
      ["p", "0", "0", "b", "10", "55"], ["p", "0", "1", "b", "11", "NA"],
      ["p", "1", "0", "b", "12", "55"], ["p", "1", "1", "b", "13", "NA"]]
     [[some 55, none], [some 55, none]] [[some 10, none], [some 12, none]]
     [("55", 2), ("NA", 2)] 2 2 (by decide) (by decide)⟩

/-! ## Association-list and indexing toolbox -/

theorem lookupA_mem {κ α : Type} [DecidableEq κ] {l : List (κ × α)} {k : κ} {v : α}
    (h : lookupA l k = some v) : (k, v) ∈ l := by
  induction l with
  | nil => cases h
  | cons p ps ih =>
    by_cases hp : p.1 = k
    · rw [lookupA, if_pos hp] at h
      refine List.mem_cons.2 (Or.inl ?_)
      obtain ⟨p1, p2⟩ := p
      simp only at hp h
      rw [Prod.mk.injEq]
      exact ⟨hp.symm, (Option.some.inj h).symm⟩
    · rw [lookupA, if_neg hp] at h
      exact List.mem_cons_of_mem _ (ih h)

theorem lookupA_eq_none_of_not_mem {κ α : Type} [DecidableEq κ] {l : List (κ × α)} {k : κ}
    (h : k ∉ l.map Prod.fst) : lookupA l k = none := by
  induction l with
  | nil => rfl
  | cons p ps ih =>
    simp only [List.map_cons, List.mem_cons, not_or] at h
    rw [lookupA, if_neg (fun hc => h.1 hc.symm)]
    exact ih h.2

theorem lookupA_isSome_of_mem_keys {κ α : Type} [DecidableEq κ] {l : List (κ × α)} {k : κ}
    (h : k ∈ l.map Prod.fst) : ∃ v, lookupA l k = some v := by
  induction l with
  | nil => cases h
  | cons p ps ih =>
    by_cases hp : p.1 = k
    · exact ⟨p.2, by rw [lookupA, if_pos hp]⟩
    · simp only [List.map_cons, List.mem_cons] at h
      rcases h with h | h
      · exact absurd h.symm hp
      · obtain ⟨v, hv⟩ := ih h
        exact ⟨v, by rw [lookupA, if_neg hp]; exact hv⟩

theorem lookupA_of_mem_nodup {κ α : Type} [DecidableEq κ] {l : List (κ × α)} {k : κ} {v : α}
    (hnd : (l.map Prod.fst).Nodup) (h : (k, v) ∈ l) : lookupA l k = some v := by
  induction l with
  | nil => cases h
  | cons p ps ih =>
    simp only [List.map_cons, List.nodup_cons] at hnd
    rcases List.mem_cons.1 h with h | h
    · subst h
      rw [lookupA, if_pos rfl]
    · have hk : p.1 ≠ k := by
        intro hc
        exact hnd.1 (hc ▸ List.mem_map_of_mem Prod.fst h)
      rw [lookupA, if_neg hk]
      exact ih hnd.2 h

theorem setA_keys {κ α : Type} [DecidableEq κ] (l : List (κ × α)) (k : κ) (v : α) :
    (setA l k v).map Prod.fst = l.map Prod.fst := by
  induction l with
  | nil => rfl
  | cons p ps ih =>
    by_cases hp : p.1 = k
    · rw [setA, if_pos hp]
      simp
    · rw [setA, if_neg hp]
      simpa using ih

theorem lookupA_setA_self {κ α : Type} [DecidableEq κ] {l : List (κ × α)} {k : κ} {w : α}
    (v : α) (h : lookupA l k = some w) : lookupA (setA l k v) k = some v := by
  induction l with
  | nil => cases h
  | cons p ps ih =>
    by_cases hp : p.1 = k
    · rw [setA, if_pos hp, lookupA, if_pos hp]
    · rw [lookupA, if_neg hp] at h
      rw [setA, if_neg hp, lookupA, if_neg hp]
      exact ih h

theorem lookupA_setA_ne {κ α : Type} [DecidableEq κ] (l : List (κ × α)) (k k' : κ) (v : α)
    (h : k' ≠ k) : lookupA (setA l k v) k' = lookupA l k' := by
  induction l with
  | nil => rfl
  | cons p ps ih =>
    by_cases hp : p.1 = k
    · have hne : ¬ p.1 = k' := fun hc => h (hc.symm.trans hp)
      rw [setA, if_pos hp, lookupA, lookupA, if_neg hne, if_neg hne]
    · rw [setA, if_neg hp, lookupA, lookupA]
      by_cases hp' : p.1 = k'
      · rw [if_pos hp', if_pos hp']
      · rw [if_neg hp', if_neg hp']
        exact ih

/-- Association lists with the same key sequence, no duplicate keys, and the
same lookups are equal. -/
theorem assoc_ext {α : Type} {l₁ l₂ : List (String × α)}
    (hk : l₁.map Prod.fst = l₂.map Prod.fst) (hnd : (l₂.map Prod.fst).Nodup)
    (hv : ∀ n, lookupA l₁ n = lookupA l₂ n) : l₁ = l₂ := by
  induction l₂ generalizing l₁ with
  | nil =>
    cases l₁ with
    | nil => rfl
    | cons p ps => cases hk
  | cons q qs ih =>
    cases l₁ with
    | nil => cases hk
    | cons p ps =>
      simp only [List.map_cons, List.cons.injEq] at hk
      simp only [List.map_cons, List.nodup_cons] at hnd
      have hpq : p = q := by
        have h1 := hv q.1
        rw [lookupA, if_pos hk.1, lookupA, if_pos rfl] at h1
        cases p
        cases q
        simp only at hk
        simp_all
      subst hpq
      have htail : ps = qs := by
        refine ih hk.2 hnd.2 ?_
        intro n
        by_cases hn : n = p.1
        · subst hn
          rw [lookupA_eq_none_of_not_mem (by rw [hk.2]; exact hnd.1),
            lookupA_eq_none_of_not_mem hnd.1]
        · have h1 := hv n
          rw [lookupA, if_neg (fun hc => hn hc.symm), lookupA,
            if_neg (fun hc => hn hc.symm)] at h1
          exact h1
      rw [htail]

theorem getD_set {α : Type} (l : List α) (i j : Nat) (v d : α) :
    (l.set i v).getD j d = if j = i ∧ i < l.length then v else l.getD j d := by
  by_cases hij : j = i
  · subst hij
    by_cases hj : j < l.length
    · rw [if_pos ⟨rfl, hj⟩]
      rw [List.getD_eq_getElem?_getD, List.getElem?_set_self (by simpa using hj)]
      rfl
    · rw [if_neg (fun hc => hj hc.2), List.getD_eq_getElem?_getD, List.getD_eq_getElem?_getD,
        List.getElem?_set_self']
      have : l[j]? = none := List.getElem?_eq_none (by omega)
      rw [this]
      simp
  · rw [if_neg (fun hc => hij hc.1), List.getD_eq_getElem?_getD, List.getD_eq_getElem?_getD,
      List.getElem?_set_ne (fun hc => hij hc.symm)]

theorem getD_map_zero {α β : Type} (f : α → β) (l : List α) (j : Nat) (d : α) (hj : j < l.length) :
    (l.map f).getD j (f d) = f (l.getD j d) := by
  rw [List.getD_eq_getElem?_getD, List.getD_eq_getElem?_getD, List.getElem?_map,
    List.getElem?_eq_getElem hj]
  simp

/-- Division with remainder is unique: the flat index `x * L + y` with
`y < L` decomposes as `x = m / L`, `y = m % L` exactly when it equals `m`. -/
theorem flat_div (x y L : Nat) (hy : y < L) : (x * L + y) / L = x ∧ (x * L + y) % L = y := by
  have h0 : 0 < L := by omega
  constructor
  · rw [Nat.add_comm, Nat.mul_comm, Nat.add_mul_div_left _ _ h0, Nat.div_eq_of_lt hy]
    omega
  · rw [Nat.add_comm, Nat.mul_comm, Nat.add_mul_mod_self_left, Nat.mod_eq_of_lt hy]

theorem flat_lt {x y L R : Nat} (hx : x < R) (hy : y < L) : x * L + y < R * L := by
  have h1 : x * L + y < x * L + L := by omega
  have h2 : x * L + L = (x + 1) * L := by ring
  have h3 : (x + 1) * L ≤ R * L := Nat.mul_le_mul_right L (by omega)
  omega

theorem flat_eq_iff {m L x y : Nat} (hy : y < L) :
    x * L + y = m ↔ x = m / L ∧ y = m % L := by
  constructor
  · rintro rfl
    obtain ⟨h1, h2⟩ := flat_div x y L hy
    exact ⟨h1.symm, h2.symm⟩
  · rintro ⟨rfl, rfl⟩
    rw [Nat.mul_comm]
    exact Nat.div_add_mod m L

/-- Nested extensionality for 2-D arrays via `getD`. -/
theorem ext2_getD {a b : List (List Int)} (hl : b.length = a.length)
    (hrow : ∀ x, (b.getD x []).length = (a.getD x []).length)
    (hval : ∀ x y, x < a.length → y < (a.getD x []).length →
      (b.getD x []).getD y 0 = (a.getD x []).getD y 0) : b = a := by
  refine List.ext_getElem hl (fun x hb ha => ?_)
  have e1 : b.getD x [] = b[x] := getD_eq_getElem' [] hb
  have e2 : a.getD x [] = a[x] := getD_eq_getElem' [] ha
  have hrl : b[x].length = a[x].length := by rw [← e1, ← e2]; exact hrow x
  refine List.ext_getElem hrl (fun y hby hay => ?_)
  have hy : y < (a.getD x []).length := by rw [e2]; exact hay
  have hvxy := hval x y ha hy
  rw [e1, e2, getD_eq_getElem' 0 hby, getD_eq_getElem' 0 hay] at hvxy
  exact hvxy

/-- Nested extensionality for 3-D arrays via `getD`. -/
theorem ext3_getD {a b : List (List (List Int))} (hl : b.length = a.length)
    (hp : ∀ x, (b.getD x []).length = (a.getD x []).length)
    (hrow : ∀ x y, ((b.getD x []).getD y []).length = ((a.getD x []).getD y []).length)
    (hval : ∀ x y z, x < a.length → y < (a.getD x []).length →
      z < ((a.getD x []).getD y []).length →
      ((b.getD x []).getD y []).getD z 0 = ((a.getD x []).getD y []).getD z 0) : b = a := by
  refine List.ext_getElem hl (fun x hb ha => ?_)
  have hx : x < a.length := ha
  have e1 : b.getD x [] = b[x] := getD_eq_getElem' [] hb
  have e2 : a.getD x [] = a[x] := getD_eq_getElem' [] hx
  refine ext2_getD ?_ ?_ ?_
  · rw [← e1, ← e2]; exact hp x
  · intro y
    rw [← e1, ← e2]; exact hrow x y
  · intro y z hy hz
    rw [← e1, ← e2]
    exact hval x y z hx (by rw [e2]; exact hy) (by rw [e2]; exact hz)

/-! ## Reading scalars from the store -/

theorem get2?_a2 {a : List (List Int)} {la lo : Nat} (hla : la < a.length)
    (hlo : lo < (a.getD la []).length) :
    get2? (StoreVal.a2 a) la lo = some ((a.getD la []).getD lo 0) := by
  have e1 : a.getD la [] = a[la] := getD_eq_getElem' [] hla
  have hlo' : lo < a[la].length := by rw [← e1]; exact hlo
  calc get2? (StoreVal.a2 a) la lo = a[la]?.bind (fun row => row[lo]?) := rfl
    _ = a[la][lo]? := by rw [List.getElem?_eq_getElem hla]; rfl
    _ = some (a[la][lo]) := List.getElem?_eq_getElem hlo'
    _ = some ((a.getD la []).getD lo 0) := by rw [e1, getD_eq_getElem' 0 hlo']

theorem get3?_a3 {a : List (List (List Int))} {la lo h : Nat} (hla : la < a.length)
    (hlo : lo < (a.getD la []).length) (hh : h < ((a.getD la []).getD lo []).length) :
    get3? (StoreVal.a3 a) la lo h = some (((a.getD la []).getD lo []).getD h 0) := by
  have e1 : a.getD la [] = a[la] := getD_eq_getElem' [] hla
  have hlo' : lo < a[la].length := by rw [← e1]; exact hlo
  have e2 : (a.getD la []).getD lo [] = a[la][lo] := by rw [e1, getD_eq_getElem' [] hlo']
  have hh' : h < a[la][lo].length := by rw [← e2]; exact hh
  calc get3? (StoreVal.a3 a) la lo h
      = (a[la]?.bind (fun p => p[lo]?)).bind (fun row => row[h]?) := rfl
    _ = a[la][lo][h]? := by
        rw [List.getElem?_eq_getElem hla]
        show (a[la][lo]?).bind (fun row => row[h]?) = _
        rw [List.getElem?_eq_getElem hlo']
        rfl
    _ = some (a[la][lo][h]) := List.getElem?_eq_getElem hh'
    _ = some (((a.getD la []).getD lo []).getD h 0) := by rw [e2, getD_eq_getElem' 0 hh']

theorem get2?_eq_some {sv : StoreVal} {la lo : Nat} {v : Int} (h : get2? sv la lo = some v) :
    ∃ a, sv = StoreVal.a2 a ∧ la < a.length ∧ lo < (a.getD la []).length ∧
      (a.getD la []).getD lo 0 = v := by
  cases sv with
  | a1 a => cases h
  | a3 a => cases h
  | a2 a =>
    simp only [get2?, Option.bind_eq_some] at h
    obtain ⟨row, hrow, hv⟩ := h
    obtain ⟨hla, hre⟩ := List.getElem?_eq_some.1 hrow
    obtain ⟨hlo, hve⟩ := List.getElem?_eq_some.1 hv
    have e1 : a.getD la [] = a[la] := getD_eq_getElem' [] hla
    refine ⟨a, rfl, hla, ?_, ?_⟩
    · rw [e1, hre]; exact hlo
    · rw [e1, hre, getD_eq_getElem' 0 hlo, hve]

theorem get3?_eq_some {sv : StoreVal} {la lo h : Nat} {v : Int} (hg : get3? sv la lo h = some v) :
    ∃ a, sv = StoreVal.a3 a ∧ la < a.length ∧ lo < (a.getD la []).length ∧
      h < ((a.getD la []).getD lo []).length ∧ ((a.getD la []).getD lo []).getD h 0 = v := by
  cases sv with
  | a1 a => cases hg
  | a2 a => cases hg
  | a3 a =>
    simp only [get3?, Option.bind_eq_some] at hg
    obtain ⟨row, ⟨p, hp, hrow⟩, hv⟩ := hg
    obtain ⟨hla, hpe⟩ := List.getElem?_eq_some.1 hp
    obtain ⟨hlo, hre⟩ := List.getElem?_eq_some.1 hrow
    obtain ⟨hh, hve⟩ := List.getElem?_eq_some.1 hv
    have e1 : a.getD la [] = p := by rw [getD_eq_getElem' [] hla, hpe]
    have e2 : (a.getD la []).getD lo [] = row := by rw [e1, getD_eq_getElem' [] hlo, hre]
    refine ⟨a, rfl, hla, ?_, ?_, ?_⟩
    · rw [e1]; exact hlo
    · rw [e2]; exact hh
    · rw [e2, getD_eq_getElem' 0 hh, hve]

/-! ## The variable loops of `read_state` -/

theorem sval2_eq {store : StoreVars} {n : String} {la lo : Nat} {a : List (List Int)}
    (h : lookupA store n = some (StoreVal.a2 a)) :
    sval2 store n la lo = (a.getD la []).getD lo 0 := by
  simp [sval2, h]

theorem sval3_eq {store : StoreVars} {n : String} {la lo hh : Nat} {a : List (List (List Int))}
    (h : lookupA store n = some (StoreVal.a3 a)) :
    sval3 store n la lo hh = ((a.getD la []).getD lo []).getD hh 0 := by
  simp [sval3, h]

theorem readVars2_char {store : StoreVars} {la lo : Nat} :
    ∀ {vs out : Vars}, readVars2 store la lo vs = some out → out = specVars2 store la lo vs := by
  intro vs
  induction vs with
  | nil =>
    intro out h
    simp only [readVars2, Option.some.injEq] at h
    rw [← h]
    rfl
  | cons p rest ih =>
    intro out h
    simp only [readVars2, Option.bind_eq_some, Option.some.injEq] at h
    obtain ⟨sv, hsv, v, hv, rest', hrest, hout⟩ := h
    obtain ⟨a, rfl, hla, hlo, hval⟩ := get2?_eq_some hv
    have hsv2 : sval2 store p.1 la lo = v := by rw [sval2_eq hsv, hval]
    rw [← hout, ih hrest]
    simp [specVars2, hsv2]

theorem readVars2_ok {store : StoreVars} {la lo : Nat} :
    ∀ {vs : Vars},
      (∀ p ∈ vs, ∃ a, lookupA store p.1 = some (StoreVal.a2 a) ∧ la < a.length ∧
        lo < (a.getD la []).length) →
      readVars2 store la lo vs = some (specVars2 store la lo vs) := by
  intro vs
  induction vs with
  | nil => intro _; rfl
  | cons p rest ih =>
    intro h
    obtain ⟨a, hlk, hla, hlo⟩ := h p (List.mem_cons_self p rest)
    rw [readVars2, hlk, Option.some_bind, get2?_a2 hla hlo, Option.some_bind,
      ih (fun q hq => h q (List.mem_cons_of_mem p hq)), Option.some_bind]
    simp [specVars2, sval2_eq hlk]

theorem readVars3_char {store : StoreVars} {la lo hh : Nat} :
    ∀ {vs out : Vars}, readVars3 store la lo hh vs = some out →
      out = specVars3 store la lo hh vs ∧
      ∀ p ∈ vs, ∃ sv, lookupA store p.1 = some sv ∧
        get3? sv la lo hh = some (sval3 store p.1 la lo hh) := by
  intro vs
  induction vs with
  | nil =>
    intro out h
    simp only [readVars3, Option.some.injEq] at h
    exact ⟨by rw [← h]; rfl, by intro p hp; cases hp⟩
  | cons p rest ih =>
    intro out h
    simp only [readVars3, Option.bind_eq_some, Option.some.injEq] at h
    obtain ⟨sv, hsv, v, hv, rest', hrest, hout⟩ := h
    obtain ⟨a, rfl, hla, hlo, hhh, hval⟩ := get3?_eq_some hv
    obtain ⟨ihc, ihp⟩ := ih hrest
    constructor
    · have hsv3 : sval3 store p.1 la lo hh = v := by rw [sval3_eq hsv, hval]
      rw [← hout, ihc]
      simp [specVars3, hsv3]
    · intro q hq
      rcases List.mem_cons.1 hq with hq | hq
      · subst hq
        refine ⟨StoreVal.a3 a, hsv, ?_⟩
        rw [get3?_a3 hla hlo hhh, sval3_eq hsv]
      · exact ihp q hq

theorem readVars3_ok {store : StoreVars} {la lo hh : Nat} :
    ∀ {vs : Vars},
      (∀ p ∈ vs, ∃ a, lookupA store p.1 = some (StoreVal.a3 a) ∧ la < a.length ∧
        lo < (a.getD la []).length ∧ hh < ((a.getD la []).getD lo []).length) →
      readVars3 store la lo hh vs = some (specVars3 store la lo hh vs) := by
  intro vs
  induction vs with
  | nil => intro _; rfl
  | cons p rest ih =>
    intro h
    obtain ⟨a, hlk, hla, hlo, hb⟩ := h p (List.mem_cons_self p rest)
    rw [readVars3, hlk, Option.some_bind, get3?_a3 hla hlo hb, Option.some_bind,
      ih (fun q hq => h q (List.mem_cons_of_mem p hq)), Option.some_bind]
    simp [specVars3, sval3_eq hlk]

/-! ## The HRU / band / cell loops of `read_state` -/

theorem bandsOffset_zero (bands : List Band) : bandsOffset bands 0 = 0 := by
  simp [bandsOffset]

theorem bandsOffset_cons (b : Band) (bs : List Band) (bi : Nat) :
    bandsOffset (b :: bs) (bi + 1) = b.hru_keys_sorted.length + bandsOffset bs bi := by
  simp [bandsOffset]

theorem readHrus_char {store : StoreVars} {la lo : Nat} :
    ∀ {keys : List Int} {hrus : List (Int × HRU)} {h : Nat} {out : List (Int × HRU) × Nat},
      readHrus store la lo keys hrus h = some out →
      out = (specHrus store la lo keys hrus h, h + keys.length) := by
  intro keys
  induction keys with
  | nil =>
    intro hrus h out hr
    simp only [readHrus, Option.some.injEq] at hr
    rw [← hr]
    simp [specHrus]
  | cons k ks ih =>
    intro hrus h out hr
    simp only [readHrus, Option.bind_eq_some] at hr
    obtain ⟨hru, hhru, vs, hvs, hrec⟩ := hr
    obtain ⟨hvs_eq, _⟩ := readVars3_char hvs
    subst hvs_eq
    rw [ih hrec]
    simp only [specHrus, hhru, Prod.mk.injEq, List.length_cons]
    exact ⟨by trivial, by omega⟩

theorem readHrus_untouched {store : StoreVars} {la lo : Nat} :
    ∀ {keys : List Int} {hrus : List (Int × HRU)} {h : Nat} {out : List (Int × HRU) × Nat},
      readHrus store la lo keys hrus h = some out →
      ∀ k, k ∉ keys → lookupA out.1 k = lookupA hrus k := by
  intro keys
  induction keys with
  | nil =>
    intro hrus h out hr k _
    simp only [readHrus, Option.some.injEq] at hr
    rw [← hr]
  | cons k0 ks ih =>
    intro hrus h out hr k hk
    simp only [readHrus, Option.bind_eq_some] at hr
    obtain ⟨hru, hhru, vs, hvs, hrec⟩ := hr
    have h1 := ih hrec k (fun hc => hk (List.mem_cons_of_mem k0 hc))
    rw [h1, lookupA_setA_ne _ _ _ _
      (fun hc => hk (by rw [hc]; exact List.mem_cons_self k0 ks))]

theorem readHrus_elem {store : StoreVars} {la lo : Nat} :
    ∀ {keys : List Int} {hrus : List (Int × HRU)} {h0 : Nat} {out : List (Int × HRU) × Nat},
      readHrus store la lo keys hrus h0 = some out → keys.Nodup →
      ∀ {j : Nat} {k : Int}, keys[j]? = some k →
      ∃ hru0, lookupA hrus k = some hru0 ∧
        lookupA out.1 k = some (HRU.mk (HruState.mk
          (specVars3 store la lo (h0 + j) hru0.hru_state.variables))) ∧
        ∀ p ∈ hru0.hru_state.variables, ∃ sv, lookupA store p.1 = some sv ∧
          get3? sv la lo (h0 + j) = some (sval3 store p.1 la lo (h0 + j)) := by
  intro keys
  induction keys with
  | nil =>
    intro hrus h0 out hr _ j k hj
    cases hj
  | cons k0 ks ih =>
    intro hrus h0 out hr hnd j k hj
    simp only [readHrus, Option.bind_eq_some] at hr
    obtain ⟨hru, hhru, vs, hvs, hrec⟩ := hr
    simp only [List.nodup_cons] at hnd
    obtain ⟨hvs_eq, hvs_get⟩ := readVars3_char hvs
    cases j with
    | zero =>
      have hk : k0 = k := by simpa using hj
      subst hk
      refine ⟨hru, hhru, ?_, ?_⟩
      · rw [readHrus_untouched hrec k0 hnd.1,
          lookupA_setA_self _ hhru, hvs_eq]
        simp
      · intro p hp
        simpa using hvs_get p hp
    | succ j =>
      have hj' : ks[j]? = some k := by simpa using hj
      have hkmem : k ∈ ks := by
        obtain ⟨hlt, he⟩ := List.getElem?_eq_some.1 hj'
        exact he ▸ List.getElem_mem hlt
      have hkne : k ≠ k0 := fun hc => hnd.1 (hc ▸ hkmem)
      obtain ⟨hru0, hh0, hlk, hget⟩ := ih hrec hnd.2 hj'
      rw [lookupA_setA_ne _ _ _ _ hkne] at hh0
      have harith : h0 + 1 + j = h0 + (j + 1) := by omega
      rw [harith] at hlk hget
      exact ⟨hru0, hh0, hlk, hget⟩

theorem readBands_char {store : StoreVars} {la lo : Nat} :
    ∀ {bands : List Band} {h : Nat} {out : List Band × Nat},
      readBands store la lo bands h = some out →
      out = (specBands store la lo bands h,
        h + (bands.map (fun b => b.hru_keys_sorted.length)).sum) := by
  intro bands
  induction bands with
  | nil =>
    intro h out hr
    simp only [readBands, Option.some.injEq] at hr
    rw [← hr]
    simp [specBands]
  | cons b bs ih =>
    intro h out hr
    simp only [readBands, Option.bind_eq_some, Option.some.injEq] at hr
    obtain ⟨r, hrh, r', hrb, hout⟩ := hr
    rw [readHrus_char hrh] at hrb hout
    rw [ih hrb] at hout
    rw [← hout]
    simp only [specBands, Prod.mk.injEq, List.map_cons, List.sum_cons]
    exact ⟨by trivial, by omega⟩

theorem readBands_elem {store : StoreVars} {la lo : Nat} :
    ∀ {bands : List Band} {h0 : Nat} {out : List Band × Nat},
      readBands store la lo bands h0 = some out →
      ∀ {bi : Nat} {b : Band}, bands[bi]? = some b →
      ∃ r, readHrus store la lo b.hru_keys_sorted b.hrus (h0 + bandsOffset bands bi) = some r ∧
        out.1[bi]? = some (Band.mk b.hru_keys_sorted r.1) := by
  intro bands
  induction bands with
  | nil =>
    intro h0 out hr bi b hb
    cases hb
  | cons b0 bs ih =>
    intro h0 out hr bi b hb
    simp only [readBands, Option.bind_eq_some, Option.some.injEq] at hr
    obtain ⟨r, hrh, r', hrb, hout⟩ := hr
    cases bi with
    | zero =>
      have hb0 : b0 = b := by simpa using hb
      subst hb0
      refine ⟨r, ?_, ?_⟩
      · rw [bandsOffset_zero, Nat.add_zero]
        exact hrh
      · rw [← hout]
        simp
    | succ bi =>
      have hb' : bs[bi]? = some b := by simpa using hb
      obtain ⟨rr, hrr, helem⟩ := ih hrb hb'
      have hr2 : r.2 = h0 + b0.hru_keys_sorted.length := by rw [readHrus_char hrh]
      have harith : r.2 + bandsOffset bs bi = h0 + bandsOffset (b0 :: bs) (bi + 1) := by
        rw [hr2, bandsOffset_cons]
        omega
      rw [harith] at hrr
      refine ⟨rr, hrr, ?_⟩
      rw [← hout]
      simpa using helem

theorem readCells_char {store : StoreVars} {L : Nat} :
    ∀ {cells : Cells} {i : Nat} {out : Cells},
      readCells store L cells i = some out → out = specCells store L cells i := by
  intro cells
  induction cells with
  | nil =>
    intro i out hr
    simp only [readCells, Option.some.injEq] at hr
    rw [← hr]
    rfl
  | cons c rest ih =>
    intro i out hr
    simp only [readCells, Option.bind_eq_some, Option.some.injEq] at hr
    obtain ⟨idx, hidx, cvs, hcvs, br, hbr, rest', hrest, hout⟩ := hr
    have hL : L ≠ 0 ∧ idx = (i / L, i % L) := by
      by_cases h0 : L = 0
      · rw [get_2D_cell_indices, if_pos h0] at hidx
        cases hidx
      · rw [get_2D_cell_indices, if_neg h0] at hidx
        exact ⟨h0, (Option.some.inj hidx).symm⟩
    obtain ⟨h0, rfl⟩ := hL
    rw [← hout, readVars2_char hcvs, readBands_char hbr, ih hrest]
    rfl

theorem readCells_elem {store : StoreVars} {L : Nat} :
    ∀ {cells : Cells} {i : Nat} {out : Cells},
      readCells store L cells i = some out →
      ∀ {ci : Nat} {cid : String} {c : Cell}, cells[ci]? = some (cid, c) →
      L ≠ 0 ∧ ∃ cvs br,
        readVars2 store ((i + ci) / L) ((i + ci) % L) c.cell_state.variables = some cvs ∧
        readBands store ((i + ci) / L) ((i + ci) % L) c.bands 0 = some br ∧
        out[ci]? = some (cid, Cell.mk (CellState.mk cvs) br.1) := by
  intro cells
  induction cells with
  | nil =>
    intro i out hr ci cid c hc
    cases hc
  | cons c0 rest ih =>
    intro i out hr ci cid c hc
    simp only [readCells, Option.bind_eq_some, Option.some.injEq] at hr
    obtain ⟨idx, hidx, cvs, hcvs, br, hbr, rest', hrest, hout⟩ := hr
    have hL : L ≠ 0 ∧ idx = (i / L, i % L) := by
      by_cases h0 : L = 0
      · rw [get_2D_cell_indices, if_pos h0] at hidx
        cases hidx
      · rw [get_2D_cell_indices, if_neg h0] at hidx
        exact ⟨h0, (Option.some.inj hidx).symm⟩
    obtain ⟨h0, rfl⟩ := hL
    cases ci with
    | zero =>
      have hc0 : c0 = (cid, c) := by simpa using hc
      subst hc0
      refine ⟨h0, cvs, br, ?_, ?_, ?_⟩
      · rw [Nat.add_zero]
        exact hcvs
      · rw [Nat.add_zero]
        exact hbr
      · rw [← hout]
        simp
    | succ ci =>
      have hc' : rest[ci]? = some (cid, c) := by simpa using hc
      obtain ⟨_, cvs', br', hcvs', hbr', helem⟩ := ih hrest hc'
      have harith : i + 1 + ci = i + (ci + 1) := by omega
      rw [harith] at hcvs' hbr'
      refine ⟨h0, cvs', br', hcvs', hbr', ?_⟩
      rw [← hout]
      simpa using helem

/-! ## Success of `read_state` on a well-formed store and hierarchy -/

theorem shape2_bounds {a : List (List Int)} {R L la lo : Nat} (h : shape2 a R L)
    (hla : la < R) (hlo : lo < L) :
    la < a.length ∧ lo < (a.getD la []).length := by
  obtain ⟨hlen, hrows⟩ := h
  have h1 : la < a.length := by omega
  have h2 : a.getD la [] ∈ a := by
    rw [getD_eq_getElem' [] h1]
    exact List.getElem_mem h1
  exact ⟨h1, by rw [hrows _ h2]; exact hlo⟩

theorem shape3_bounds {a : List (List (List Int))} {R L K la lo : Nat} (h : shape3 a R L K)
    (hla : la < R) (hlo : lo < L) :
    la < a.length ∧ lo < (a.getD la []).length ∧ ((a.getD la []).getD lo []).length = K := by
  obtain ⟨hlen, hps⟩ := h
  have h1 : la < a.length := by omega
  have hmem : a.getD la [] ∈ a := by
    rw [getD_eq_getElem' [] h1]
    exact List.getElem_mem h1
  obtain ⟨hpl, hrows⟩ := hps _ hmem
  have h2 : lo < (a.getD la []).length := by rw [hpl]; exact hlo
  have hmem2 : (a.getD la []).getD lo [] ∈ a.getD la [] := by
    rw [getD_eq_getElem' [] h2]
    exact List.getElem_mem h2
  exact ⟨h1, h2, hrows _ hmem2⟩

theorem StoreWF.a2_shape {store : StoreVars} {L R K : Nat} (hS : StoreWF store L R K)
    {n : String} {a : List (List Int)} (h : lookupA store n = some (StoreVal.a2 a)) :
    shape2 a R L := by
  obtain ⟨hnd, ⟨lonA, hlon, hlen⟩, hL, hall⟩ := hS
  rcases hall _ (lookupA_mem h) with h1 | h2 | h3
  · simp only at h1
    rw [h1] at h
    rw [h] at hlon
    simp at hlon
  · obtain ⟨a', ha', hsh⟩ := h2
    simp only at ha'
    cases ha'
    exact hsh
  · obtain ⟨a', ha', _⟩ := h3
    simp only at ha'
    cases ha'

theorem StoreWF.a3_shape {store : StoreVars} {L R K : Nat} (hS : StoreWF store L R K)
    {n : String} {a : List (List (List Int))} (h : lookupA store n = some (StoreVal.a3 a)) :
    shape3 a R L K := by
  obtain ⟨hnd, ⟨lonA, hlon, hlen⟩, hL, hall⟩ := hS
  rcases hall _ (lookupA_mem h) with h1 | h2 | h3
  · simp only at h1
    rw [h1] at h
    rw [h] at hlon
    simp at hlon
  · obtain ⟨a', ha', _⟩ := h2
    simp only at ha'
    cases ha'
  · obtain ⟨a', ha', hsh⟩ := h3
    simp only at ha'
    cases ha'
    exact hsh

theorem readHrus_ok {store : StoreVars} {la lo : Nat} :
    ∀ {keys : List Int} {hrus : List (Int × HRU)} {h : Nat},
      keys.Nodup →
      (∀ k ∈ keys, ∃ hru, lookupA hrus k = some hru ∧
        ∀ p ∈ hru.hru_state.variables, ∃ a, lookupA store p.1 = some (StoreVal.a3 a) ∧
          la < a.length ∧ lo < (a.getD la []).length ∧
          h + keys.length ≤ ((a.getD la []).getD lo []).length) →
      readHrus store la lo keys hrus h
        = some (specHrus store la lo keys hrus h, h + keys.length) := by
  intro keys
  induction keys with
  | nil =>
    intro hrus h _ _
    simp [readHrus, specHrus]
  | cons k ks ih =>
    intro hrus h hnd hb
    simp only [List.nodup_cons] at hnd
    obtain ⟨hru, hhru, hvars⟩ := hb k (List.mem_cons_self k ks)
    have hv3 : readVars3 store la lo h hru.hru_state.variables
        = some (specVars3 store la lo h hru.hru_state.variables) := by
      refine readVars3_ok ?_
      intro p hp
      obtain ⟨a, h1, h2, h3, h4⟩ := hvars p hp
      refine ⟨a, h1, h2, h3, ?_⟩
      simp only [List.length_cons] at h4
      omega
    rw [readHrus, hhru, Option.some_bind, hv3, Option.some_bind]
    have hrec := @ih (setA hrus k (HRU.mk (HruState.mk
        (specVars3 store la lo h hru.hru_state.variables)))) (h + 1) hnd.2 ?_
    · rw [hrec]
      simp only [specHrus, hhru, Option.some.injEq, Prod.mk.injEq, List.length_cons]
      exact ⟨by trivial, by omega⟩
    · intro k' hk'
      have hne : k' ≠ k := fun hc => hnd.1 (hc ▸ hk')
      obtain ⟨hru', hhru', hvars'⟩ := hb k' (List.mem_cons_of_mem k hk')
      refine ⟨hru', ?_, ?_⟩
      · rw [lookupA_setA_ne _ _ _ _ hne]
        exact hhru'
      · intro p hp
        obtain ⟨a, h1, h2, h3, h4⟩ := hvars' p hp
        refine ⟨a, h1, h2, h3, ?_⟩
        simp only [List.length_cons] at h4
        omega

theorem readBands_ok {store : StoreVars} {la lo K : Nat} :
    ∀ {bands : List Band} {h : Nat},
      (∀ b ∈ bands, b.hru_keys_sorted.Nodup ∧
        ∀ k ∈ b.hru_keys_sorted, ∃ hru, lookupA b.hrus k = some hru ∧
          ∀ p ∈ hru.hru_state.variables, ∃ a, lookupA store p.1 = some (StoreVal.a3 a) ∧
            la < a.length ∧ lo < (a.getD la []).length ∧
            ((a.getD la []).getD lo []).length = K) →
      h + (bands.map (fun b => b.hru_keys_sorted.length)).sum ≤ K →
      readBands store la lo bands h = some (specBands store la lo bands h,
        h + (bands.map (fun b => b.hru_keys_sorted.length)).sum) := by
  intro bands
  induction bands with
  | nil =>
    intro h _ _
    simp [readBands, specBands]
  | cons b bs ih =>
    intro h hb hsum
    simp only [List.map_cons, List.sum_cons] at hsum
    obtain ⟨hndb, hkeys⟩ := hb b (List.mem_cons_self b bs)
    have hh : readHrus store la lo b.hru_keys_sorted b.hrus h
        = some (specHrus store la lo b.hru_keys_sorted b.hrus h,
            h + b.hru_keys_sorted.length) := by
      refine readHrus_ok hndb ?_
      intro k hk
      obtain ⟨hru, h1, h2⟩ := hkeys k hk
      refine ⟨hru, h1, ?_⟩
      intro p hp
      obtain ⟨a, g1, g2, g3, g4⟩ := h2 p hp
      exact ⟨a, g1, g2, g3, by omega⟩
    rw [readBands, hh, Option.some_bind]
    have hrec := ih (h := h + b.hru_keys_sorted.length)
      (fun b' hb' => hb b' (List.mem_cons_of_mem b hb')) (by omega)
    rw [hrec, Option.some_bind]
    simp only [specBands, Option.some.injEq, Prod.mk.injEq, List.map_cons, List.sum_cons]
    exact ⟨by trivial, by omega⟩

theorem readCells_ok {store : StoreVars} {L R K : Nat} (hS : StoreWF store L R K) :
    ∀ {cells : Cells} {i : Nat},
      i + cells.length ≤ R * L →
      (∀ p ∈ cells, CellWF store K p.2) →
      readCells store L cells i = some (specCells store L cells i) := by
  intro cells
  induction cells with
  | nil =>
    intro i _ _
    rfl
  | cons c rest ih =>
    intro i hlen hwf
    have hL : 0 < L := hS.2.2.1
    have hiRL : i < R * L := by
      simp only [List.length_cons] at hlen
      omega
    have hla : i / L < R := (Nat.div_lt_iff_lt_mul hL).2 hiRL
    have hlo : i % L < L := Nat.mod_lt _ hL
    obtain ⟨hndv, hvars, hbands, htot⟩ := hwf c (List.mem_cons_self c rest)
    have hcv : readVars2 store (i / L) (i % L) c.2.cell_state.variables
        = some (specVars2 store (i / L) (i % L) c.2.cell_state.variables) := by
      refine readVars2_ok ?_
      intro p hp
      obtain ⟨a, ha⟩ := (hvars p.1).1 ⟨p.2, by simpa using hp⟩
      obtain ⟨b1, b2⟩ := shape2_bounds (hS.a2_shape ha) hla hlo
      exact ⟨a, ha, b1, b2⟩
    have hbd : readBands store (i / L) (i % L) c.2.bands 0
        = some (specBands store (i / L) (i % L) c.2.bands 0,
            0 + (c.2.bands.map (fun b => b.hru_keys_sorted.length)).sum) := by
      refine readBands_ok (K := K) ?_ ?_
      · intro b hb
        obtain ⟨hnd, hk⟩ := hbands b hb
        refine ⟨hnd, ?_⟩
        intro k hkk
        obtain ⟨hru, h1, _, h2⟩ := hk k hkk
        refine ⟨hru, h1, ?_⟩
        intro p hp
        obtain ⟨a, ha⟩ := (h2 p.1).1 ⟨p.2, by simpa using hp⟩
        obtain ⟨b1, b2, b3⟩ := shape3_bounds (hS.a3_shape ha) hla hlo
        exact ⟨a, ha, b1, b2, b3⟩
      · have : (c.2.bands.map (fun b => b.hru_keys_sorted.length)).sum = K := htot
        omega
    rw [readCells, get_2D_cell_indices, if_neg (by omega), Option.some_bind, hcv,
      Option.some_bind, hbd, Option.some_bind,
      ih (by simp only [List.length_cons] at hlen; omega)
        (fun p hp => hwf p (List.mem_cons_of_mem c hp)), Option.some_bind]
    rfl

/-- `read_state` completes on a well-formed store and mirrored hierarchy and
produces exactly the spec traversal, leaving the store untouched. -/
theorem read_state_ok {store : StoreVars} {L R K : Nat} {cells : Cells}
    (hS : StoreWF store L R K) (hC : CellsWF store L R K cells) :
    read_state (StateStore.mk store) cells
      = some (specCells store L cells 0, StateStore.mk store) := by
  obtain ⟨lonA, hlon, hlen⟩ := hS.2.1
  have hnl : numLons? store = some L := by
    rw [numLons?, hlon]
    simp [StoreVal.len, hlen]
  rw [read_state]
  show (numLons? store).bind _ = _
  rw [hnl, Option.some_bind,
    readCells_ok hS (by rw [hC.1]; omega) hC.2, Option.some_bind]

/-! ## C10, C2, C3 -/

/-- C10.  `read_state` mutates only the hierarchy: after a completed call
the flat state store holds exactly what it held before — the source
contains no store write, so the post store is the input store. -/
theorem read_state_store_frame (state : StateStore) (cells : Cells)
    (r : Cells × StateStore) (h : read_state state cells = some r) : r.2 = state := by
  simp only [read_state, Option.bind_eq_some, Option.some.injEq] at h
  obtain ⟨nl, _, cs, _, hr⟩ := h
  rw [← hr]

/-- Witness for C10 at a store with a cell-level and an HRU-level variable
being read. -/
theorem read_state_store_frame_witness :
    read_state (StateStore.mk [("lon", StoreVal.a1 [7]), ("cv", StoreVal.a2 [[3]]),
        ("hv", StoreVal.a3 [[[4]]])])
        [("c1", Cell.mk (CellState.mk [("cv", 0)])
          [Band.mk [2] [(2, HRU.mk (HruState.mk [("hv", 0)]))]])]
      = some ([("c1", Cell.mk (CellState.mk [("cv", 3)])
            [Band.mk [2] [(2, HRU.mk (HruState.mk [("hv", 4)]))]])],
          StateStore.mk [("lon", StoreVal.a1 [7]), ("cv", StoreVal.a2 [[3]]),
            ("hv", StoreVal.a3 [[[4]]])]) ∧
    (([("c1", Cell.mk (CellState.mk [("cv", 3)])
          [Band.mk [2] [(2, HRU.mk (HruState.mk [("hv", 4)]))]])],
        StateStore.mk [("lon", StoreVal.a1 [7]), ("cv", StoreVal.a2 [[3]]),
          ("hv", StoreVal.a3 [[[4]]])]) :
        Cells × StateStore).2
      = StateStore.mk [("lon", StoreVal.a1 [7]), ("cv", StoreVal.a2 [[3]]),
          ("hv", StoreVal.a3 [[[4]]])] :=
  ⟨by decide,
   read_state_store_frame
     (StateStore.mk [("lon", StoreVal.a1 [7]), ("cv", StoreVal.a2 [[3]]),
       ("hv", StoreVal.a3 [[[4]]])])
     [("c1", Cell.mk (CellState.mk [("cv", 0)])
       [Band.mk [2] [(2, HRU.mk (HruState.mk [("hv", 0)]))]])]
     ([("c1", Cell.mk (CellState.mk [("cv", 3)])
         [Band.mk [2] [(2, HRU.mk (HruState.mk [("hv", 4)]))]])],
       StateStore.mk [("lon", StoreVal.a1 [7]), ("cv", StoreVal.a2 [[3]]),
         ("hv", StoreVal.a3 [[[4]]])])
     (by decide)⟩

/-- C2.  Both synchronizer directions address the cell with linear index
`i` at `lat_idx = i / num_lons`, `lon_idx = i % num_lons`: the shared
helper computes exactly that pair, in particular `(2, 0)` for
`num_lons = 3, i = 6`; a completed read pass realizes the spec traversal
which reads the cell at index `i` at those coordinates, and both loop
bodies consult the helper at the running cell index. -/
theorem cell_indexing :
    (∀ L i, L ≠ 0 → get_2D_cell_indices L i = some (i / L, i % L)) ∧
    get_2D_cell_indices 3 6 = some (2, 0) ∧
    (∀ store L cells i out, readCells store L cells i = some out →
      out = specCells store L cells i) ∧
    (∀ (store : StoreVars) (L : Nat) (c : String × Cell) (rest : Cells) (i : Nat),
      readCells store L (c :: rest) i =
        (get_2D_cell_indices L i).bind fun idx =>
          (readVars2 store idx.1 idx.2 c.2.cell_state.variables).bind fun cvs =>
          (readBands store idx.1 idx.2 c.2.bands 0).bind fun br =>
          (readCells store L rest (i + 1)).bind fun rest' =>
          some ((c.1, Cell.mk (CellState.mk cvs) br.1) :: rest')) ∧
    (∀ (store : StoreVars) (L : Nat) (c : String × Cell) (rest : Cells) (i : Nat),
      writeCells L store (c :: rest) i =
        (get_2D_cell_indices L i).bind fun idx =>
          (writeVars2 store idx.1 idx.2 c.2.cell_state.variables).bind fun store1 =>
          (writeBands idx.1 idx.2 store1 c.2.bands 0).bind fun r =>
          writeCells L r.1 rest (i + 1)) := by
  refine ⟨?_, by decide, ?_, ?_, ?_⟩
  · intro L i hL
    rw [get_2D_cell_indices, if_neg hL]
  · intro store L cells i out h
    exact readCells_char h
  · intro store L c rest i
    rfl
  · intro store L c rest i
    rfl

/-- Witness for C2 at `num_lons = 3`, cell index 6. -/
theorem cell_indexing_witness :
    (3 ≠ 0) ∧ get_2D_cell_indices 3 6 = some (6 / 3, 6 % 3) ∧ 6 / 3 = 2 ∧ 6 % 3 = 0 :=
  ⟨by decide, cell_indexing.1 3 6 (by decide), by decide, by decide⟩

/-- C3.  In a completed `read_state`, the cell at linear index `ci` is read
at the coordinates given by the indexing formula, the HRU with the `j`-th
key of band `bi` (keys visited strictly in `hru_keys_sorted` order) is
assigned the running slot `bandsOffset + j` — starting at 0 for each cell
and accumulating across that cell's bands — and each of its declared
variables is copied from the store at `(lat, lon, slot)`. -/
theorem read_state_hru_traversal
    (state : StateStore) (cells : Cells) (out : Cells) (st' : StateStore)
    (h : read_state state cells = some (out, st'))
    (L : Nat) (hL : numLons? state.vars = some L)
    (ci : Nat) (cid : String) (c : Cell) (hc : cells[ci]? = some (cid, c))
    (bi : Nat) (b : Band) (hb : c.bands[bi]? = some b)
    (j : Nat) (k : Int) (hk : b.hru_keys_sorted[j]? = some k)
    (hnd : b.hru_keys_sorted.Nodup) :
    ∃ hru0, lookupA b.hrus k = some hru0 ∧
      ∃ c', out[ci]? = some (cid, c') ∧
      ∃ b', c'.bands[bi]? = some b' ∧ b'.hru_keys_sorted = b.hru_keys_sorted ∧
        lookupA b'.hrus k = some (HRU.mk (HruState.mk (specVars3 state.vars (ci / L) (ci % L)
          (bandsOffset c.bands bi + j) hru0.hru_state.variables))) ∧
        ∀ p ∈ hru0.hru_state.variables, ∃ sv, lookupA state.vars p.1 = some sv ∧
          get3? sv (ci / L) (ci % L) (bandsOffset c.bands bi + j)
            = some (sval3 state.vars p.1 (ci / L) (ci % L) (bandsOffset c.bands bi + j)) := by
  simp only [read_state, Option.bind_eq_some, Option.some.injEq] at h
  obtain ⟨nl, hnl, cs, hcs, hpair⟩ := h
  have hnlL : nl = L := by
    rw [hL] at hnl
    exact (Option.some.inj hnl).symm
  subst hnlL
  have hcsout : cs = out := congrArg Prod.fst hpair
  subst hcsout
  obtain ⟨h0, cvs, br, hcvs, hbr, helem⟩ := readCells_elem hcs hc
  rw [Nat.zero_add] at hcvs hbr
  obtain ⟨r, hrh, hbelem⟩ := readBands_elem hbr hb
  rw [Nat.zero_add] at hrh
  obtain ⟨hru0, hh0, hlk, hget⟩ := readHrus_elem hrh hnd hk
  exact ⟨hru0, hh0, Cell.mk (CellState.mk cvs) br.1, helem,
    Band.mk b.hru_keys_sorted r.1, hbelem, rfl, hlk, hget⟩

/-- Witness for C3: a cell with two bands; the single HRU of the second
band gets slot 1. -/
theorem read_state_hru_traversal_witness :
    ∃ hru0, lookupA [((2 : Int), HRU.mk (HruState.mk [("hv", 0)]))] 2 = some hru0 ∧
      ∃ c', ([("c1", Cell.mk (CellState.mk [])
            [Band.mk [5] [(5, HRU.mk (HruState.mk [("hv", 4)]))],
             Band.mk [2] [(2, HRU.mk (HruState.mk [("hv", 9)]))]])] : Cells)[0]?
          = some ("c1", c') ∧
      ∃ b', c'.bands[1]? = some b' ∧ b'.hru_keys_sorted = [2] ∧
        lookupA b'.hrus 2 = some (HRU.mk (HruState.mk (specVars3
          [("lon", StoreVal.a1 [7]), ("hv", StoreVal.a3 [[[4, 9]]])] (0 / 1) (0 % 1)
          (bandsOffset [Band.mk [5] [(5, HRU.mk (HruState.mk [("hv", 0)]))],
            Band.mk [2] [(2, HRU.mk (HruState.mk [("hv", 0)]))]] 1 + 0)
          hru0.hru_state.variables))) ∧
        ∀ p ∈ hru0.hru_state.variables, ∃ sv,
          lookupA [("lon", StoreVal.a1 [7]), ("hv", StoreVal.a3 [[[4, 9]]])] p.1
            = some sv ∧
          get3? sv (0 / 1) (0 % 1)
              (bandsOffset [Band.mk [5] [(5, HRU.mk (HruState.mk [("hv", 0)]))],
                Band.mk [2] [(2, HRU.mk (HruState.mk [("hv", 0)]))]] 1 + 0)
            = some (sval3 [("lon", StoreVal.a1 [7]), ("hv", StoreVal.a3 [[[4, 9]]])] p.1
              (0 / 1) (0 % 1)
              (bandsOffset [Band.mk [5] [(5, HRU.mk (HruState.mk [("hv", 0)]))],
                Band.mk [2] [(2, HRU.mk (HruState.mk [("hv", 0)]))]] 1 + 0)) :=
  read_state_hru_traversal
    (StateStore.mk [("lon", StoreVal.a1 [7]), ("hv", StoreVal.a3 [[[4, 9]]])])
    [("c1", Cell.mk (CellState.mk [])
      [Band.mk [5] [(5, HRU.mk (HruState.mk [("hv", 0)]))],
       Band.mk [2] [(2, HRU.mk (HruState.mk [("hv", 0)]))]])]
    [("c1", Cell.mk (CellState.mk [])
      [Band.mk [5] [(5, HRU.mk (HruState.mk [("hv", 4)]))],
       Band.mk [2] [(2, HRU.mk (HruState.mk [("hv", 9)]))]])]
    (StateStore.mk [("lon", StoreVal.a1 [7]), ("hv", StoreVal.a3 [[[4, 9]]])])
    (by decide) 1 (by decide) 0 "c1"
    (Cell.mk (CellState.mk [])
      [Band.mk [5] [(5, HRU.mk (HruState.mk [("hv", 0)]))],
       Band.mk [2] [(2, HRU.mk (HruState.mk [("hv", 0)]))]])
    (by decide) 1 (Band.mk [2] [(2, HRU.mk (HruState.mk [("hv", 0)]))]) (by decide)
    0 2 (by decide) (by decide)

/-! ## Frame lemmas for `write_state`: C4 -/

theorem writeVars2_frame {la lo : Nat} :
    ∀ {vs : Vars} {store out : StoreVars}, writeVars2 store la lo vs = some out →
      ∀ n, n ∉ vs.map Prod.fst → lookupA out n = lookupA store n := by
  intro vs
  induction vs with
  | nil =>
    intro store out h n _
    simp only [writeVars2, Option.some.injEq] at h
    rw [← h]
  | cons p rest ih =>
    intro store out h n hn
    simp only [writeVars2, Option.bind_eq_some] at h
    obtain ⟨sv, hsv, sv', hsv', hrec⟩ := h
    simp only [List.map_cons, List.mem_cons, not_or] at hn
    rw [ih hrec n hn.2, lookupA_setA_ne store p.1 n sv' hn.1]

theorem writeVars2_keys {la lo : Nat} :
    ∀ {vs : Vars} {store out : StoreVars}, writeVars2 store la lo vs = some out →
      out.map Prod.fst = store.map Prod.fst := by
  intro vs
  induction vs with
  | nil =>
    intro store out h
    simp only [writeVars2, Option.some.injEq] at h
    rw [← h]
  | cons p rest ih =>
    intro store out h
    simp only [writeVars2, Option.bind_eq_some] at h
    obtain ⟨sv, hsv, sv', hsv', hrec⟩ := h
    rw [ih hrec, setA_keys]

theorem writeVars3_frame {la lo hh : Nat} :
    ∀ {vs : Vars} {store out : StoreVars}, writeVars3 store la lo hh vs = some out →
      ∀ n, n ∉ vs.map Prod.fst → lookupA out n = lookupA store n := by
  intro vs
  induction vs with
  | nil =>
    intro store out h n _
    simp only [writeVars3, Option.some.injEq] at h
    rw [← h]
  | cons p rest ih =>
    intro store out h n hn
    simp only [writeVars3, Option.bind_eq_some] at h
    obtain ⟨sv, hsv, sv', hsv', hrec⟩ := h
    simp only [List.map_cons, List.mem_cons, not_or] at hn
    rw [ih hrec n hn.2, lookupA_setA_ne store p.1 n sv' hn.1]

theorem writeVars3_keys {la lo hh : Nat} :
    ∀ {vs : Vars} {store out : StoreVars}, writeVars3 store la lo hh vs = some out →
      out.map Prod.fst = store.map Prod.fst := by
  intro vs
  induction vs with
  | nil =>
    intro store out h
    simp only [writeVars3, Option.some.injEq] at h
    rw [← h]
  | cons p rest ih =>
    intro store out h
    simp only [writeVars3, Option.bind_eq_some] at h
    obtain ⟨sv, hsv, sv', hsv', hrec⟩ := h
    rw [ih hrec, setA_keys]

theorem writeHrus_frame {la lo : Nat} {hrus : List (Int × HRU)} :
    ∀ {keys : List Int} {store : StoreVars} {h : Nat} {out : StoreVars × Nat},
      writeHrus la lo hrus store keys h = some out →
      ∀ n, (∀ q ∈ hrus, n ∉ q.2.hru_state.variables.map Prod.fst) →
      lookupA out.1 n = lookupA store n := by
  intro keys
  induction keys with
  | nil =>
    intro store h out hw n _
    simp only [writeHrus, Option.some.injEq] at hw
    rw [← hw]
  | cons k ks ih =>
    intro store h out hw n hn
    simp only [writeHrus, Option.bind_eq_some] at hw
    obtain ⟨hru, hhru, store', hst, hrec⟩ := hw
    rw [ih hrec n hn, writeVars3_frame hst n (hn (k, hru) (lookupA_mem hhru))]

theorem writeBands_frame {la lo : Nat} :
    ∀ {bands : List Band} {store : StoreVars} {h : Nat} {out : StoreVars × Nat},
      writeBands la lo store bands h = some out →
      ∀ n, (∀ b ∈ bands, ∀ q ∈ b.hrus, n ∉ q.2.hru_state.variables.map Prod.fst) →
      lookupA out.1 n = lookupA store n := by
  intro bands
  induction bands with
  | nil =>
    intro store h out hw n _
    simp only [writeBands, Option.some.injEq] at hw
    rw [← hw]
  | cons b bs ih =>
    intro store h out hw n hn
    simp only [writeBands, Option.bind_eq_some] at hw
    obtain ⟨r, hr, hrec⟩ := hw
    rw [ih hrec n (fun b' hb' => hn b' (List.mem_cons_of_mem b hb')),
      writeHrus_frame hr n (hn b (List.mem_cons_self b bs))]

theorem writeCells_frame {L : Nat} :
    ∀ {cells : Cells} {store : StoreVars} {i : Nat} {out : StoreVars},
      writeCells L store cells i = some out →
      ∀ n, (∀ p ∈ cells, n ∉ p.2.cell_state.variables.map Prod.fst ∧
        ∀ b ∈ p.2.bands, ∀ q ∈ b.hrus, n ∉ q.2.hru_state.variables.map Prod.fst) →
      lookupA out n = lookupA store n := by
  intro cells
  induction cells with
  | nil =>
    intro store i out hw n _
    simp only [writeCells, Option.some.injEq] at hw
    rw [← hw]
  | cons c rest ih =>
    intro store i out hw n hn
    simp only [writeCells, Option.bind_eq_some] at hw
    obtain ⟨idx, hidx, store1, hst1, r, hr, hrec⟩ := hw
    obtain ⟨hn1, hn2⟩ := hn c (List.mem_cons_self c rest)
    rw [ih hrec n (fun p hp => hn p (List.mem_cons_of_mem c hp)),
      writeBands_frame hr n hn2, writeVars2_frame hst1 n hn1]

/-- C4.  After a completed `write_state`, every store variable whose name
is declared in no cell's `CellState` and no HRU's `HruState` holds exactly
the value it held before the call. -/
theorem write_state_untouched (state : StateStore) (cells : Cells) (out : StateStore)
    (h : write_state state cells = some out) (n : String)
    (hnotdecl : ∀ p ∈ cells, n ∉ p.2.cell_state.variables.map Prod.fst ∧
      ∀ b ∈ p.2.bands, ∀ q ∈ b.hrus, n ∉ q.2.hru_state.variables.map Prod.fst) :
    lookupA out.vars n = lookupA state.vars n := by
  simp only [write_state, Option.bind_eq_some, Option.some.injEq] at h
  obtain ⟨nl, hnl, vs, hvs, hout⟩ := h
  rw [← hout]
  exact writeCells_frame hvs n hnotdecl

/-- Witness for C4: a write pass that touches `cv` and `hv` leaves the
undeclared variable `other` (and the `lon` axis) unchanged. -/
theorem write_state_untouched_witness :
    write_state (StateStore.mk [("lon", StoreVal.a1 [7]), ("cv", StoreVal.a2 [[3]]),
        ("other", StoreVal.a2 [[8]]), ("hv", StoreVal.a3 [[[4]]])])
        [("c1", Cell.mk (CellState.mk [("cv", 5)])
          [Band.mk [2] [(2, HRU.mk (HruState.mk [("hv", 6)]))]])]
      = some (StateStore.mk [("lon", StoreVal.a1 [7]), ("cv", StoreVal.a2 [[5]]),
          ("other", StoreVal.a2 [[8]]), ("hv", StoreVal.a3 [[[6]]])]) ∧
    lookupA [("lon", StoreVal.a1 [7]), ("cv", StoreVal.a2 [[5]]),
        ("other", StoreVal.a2 [[8]]), ("hv", StoreVal.a3 [[[6]]])] "other"
      = lookupA [("lon", StoreVal.a1 [7]), ("cv", StoreVal.a2 [[3]]),
          ("other", StoreVal.a2 [[8]]), ("hv", StoreVal.a3 [[[4]]])] "other" :=
  ⟨by decide,
   write_state_untouched
     (StateStore.mk [("lon", StoreVal.a1 [7]), ("cv", StoreVal.a2 [[3]]),
       ("other", StoreVal.a2 [[8]]), ("hv", StoreVal.a3 [[[4]]])])
     [("c1", Cell.mk (CellState.mk [("cv", 5)])
       [Band.mk [2] [(2, HRU.mk (HruState.mk [("hv", 6)]))]])]
     (StateStore.mk [("lon", StoreVal.a1 [7]), ("cv", StoreVal.a2 [[5]]),
       ("other", StoreVal.a2 [[8]]), ("hv", StoreVal.a3 [[[6]]])])
     (by decide) "other" (by decide)⟩

/-! ## Writing scalars into the store -/

theorem set2?_a2 {a : List (List Int)} {la lo : Nat} (v : Int) (hla : la < a.length)
    (hlo : lo < (a.getD la []).length) :
    set2? (StoreVal.a2 a) la lo v = some (StoreVal.a2 (a.set la ((a.getD la []).set lo v))) := by
  have e1 : a.getD la [] = a[la] := getD_eq_getElem' [] hla
  have hlo' : lo < a[la].length := by rw [← e1]; exact hlo
  show (match a[la]? with
    | some row => if lo < row.length then some (StoreVal.a2 (a.set la (row.set lo v))) else none
    | none => none) = _
  rw [List.getElem?_eq_getElem hla]
  show (if lo < a[la].length then some (StoreVal.a2 (a.set la (a[la].set lo v))) else none) = _
  rw [if_pos hlo', e1]

theorem set3?_a3 {a : List (List (List Int))} {la lo h : Nat} (v : Int) (hla : la < a.length)
    (hlo : lo < (a.getD la []).length) (hh : h < ((a.getD la []).getD lo []).length) :
    set3? (StoreVal.a3 a) la lo h v
      = some (StoreVal.a3 (a.set la ((a.getD la []).set lo
          (((a.getD la []).getD lo []).set h v)))) := by
  have e1 : a.getD la [] = a[la] := getD_eq_getElem' [] hla
  have hlo' : lo < a[la].length := by rw [← e1]; exact hlo
  have e2 : (a.getD la []).getD lo [] = a[la][lo] := by rw [e1, getD_eq_getElem' [] hlo']
  have hh' : h < a[la][lo].length := by rw [← e2]; exact hh
  show (match a[la]? with
    | some p =>
      match p[lo]? with
      | some row => if h < row.length
          then some (StoreVal.a3 (a.set la (p.set lo (row.set h v)))) else none
      | none => none
    | none => none) = _
  rw [List.getElem?_eq_getElem hla]
  show (match a[la][lo]? with
    | some row => if h < row.length
        then some (StoreVal.a3 (a.set la (a[la].set lo (row.set h v)))) else none
    | none => none) = _
  rw [List.getElem?_eq_getElem hlo']
  show (if h < a[la][lo].length
      then some (StoreVal.a3 (a.set la (a[la].set lo (a[la][lo].set h v)))) else none) = _
  rw [if_pos hh', e1, getD_eq_getElem' [] hlo']

theorem upd2_len {a : List (List Int)} {la lo : Nat} {v : Int} :
    (a.set la ((a.getD la []).set lo v)).length = a.length := by
  simp

theorem upd2_rowlen {a : List (List Int)} {la lo : Nat} {v : Int} (x : Nat) :
    ((a.set la ((a.getD la []).set lo v)).getD x []).length = (a.getD x []).length := by
  rw [getD_set]
  by_cases hx : x = la ∧ la < a.length
  · rw [if_pos hx, List.length_set, hx.1]
  · rw [if_neg hx]

theorem upd2_getD {a : List (List Int)} {la lo : Nat} {v : Int} (hla : la < a.length)
    (hlo : lo < (a.getD la []).length) (x y : Nat) :
    ((a.set la ((a.getD la []).set lo v)).getD x []).getD y 0
      = if x = la ∧ y = lo then v else (a.getD x []).getD y 0 := by
  rw [getD_set]
  by_cases hx : x = la
  · rw [if_pos ⟨hx, hla⟩, getD_set, hx]
    by_cases hy : y = lo
    · rw [if_pos ⟨hy, hlo⟩, if_pos ⟨rfl, hy⟩]
    · rw [if_neg (fun hc => hy hc.1), if_neg (fun hc => hy hc.2)]
  · rw [if_neg (fun hc => hx hc.1), if_neg (fun hc => hx hc.1)]

theorem upd3_len {a : List (List (List Int))} {la lo h : Nat} {v : Int} :
    (a.set la ((a.getD la []).set lo (((a.getD la []).getD lo []).set h v))).length
      = a.length := by
  simp

theorem upd3_planelen {a : List (List (List Int))} {la lo h : Nat} {v : Int} (x : Nat) :
    ((a.set la ((a.getD la []).set lo (((a.getD la []).getD lo []).set h v))).getD x []).length
      = (a.getD x []).length := by
  rw [getD_set]
  by_cases hx : x = la ∧ la < a.length
  · rw [if_pos hx, List.length_set, hx.1]
  · rw [if_neg hx]

theorem upd3_row {a : List (List (List Int))} {la lo h : Nat} {v : Int} (hla : la < a.length)
    (hlo : lo < (a.getD la []).length) (x y : Nat) :
    (((a.set la ((a.getD la []).set lo (((a.getD la []).getD lo []).set h v))).getD x
        []).getD y [])
      = if x = la ∧ y = lo then ((a.getD la []).getD lo []).set h v
        else (a.getD x []).getD y [] := by
  rw [getD_set]
  by_cases hx : x = la
  · rw [if_pos ⟨hx, hla⟩, getD_set, hx]
    by_cases hy : y = lo
    · rw [if_pos ⟨hy, hlo⟩, if_pos ⟨rfl, hy⟩]
    · rw [if_neg (fun hc => hy hc.1), if_neg (fun hc => hy hc.2)]
  · rw [if_neg (fun hc => hx hc.1), if_neg (fun hc => hx hc.1)]

theorem upd3_rowlen {a : List (List (List Int))} {la lo h : Nat} {v : Int} (hla : la < a.length)
    (hlo : lo < (a.getD la []).length) (x y : Nat) :
    ((((a.set la ((a.getD la []).set lo (((a.getD la []).getD lo []).set h v))).getD x
        []).getD y []).length)
      = ((a.getD x []).getD y []).length := by
  rw [upd3_row hla hlo]
  by_cases hxy : x = la ∧ y = lo
  · rw [if_pos hxy, List.length_set, hxy.1, hxy.2]
  · rw [if_neg hxy]

theorem upd3_getD {a : List (List (List Int))} {la lo h : Nat} {v : Int} (hla : la < a.length)
    (hlo : lo < (a.getD la []).length) (hh : h < ((a.getD la []).getD lo []).length)
    (x y z : Nat) :
    ((((a.set la ((a.getD la []).set lo (((a.getD la []).getD lo []).set h v))).getD x
        []).getD y []).getD z 0)
      = if x = la ∧ y = lo ∧ z = h then v else ((a.getD x []).getD y []).getD z 0 := by
  rw [upd3_row hla hlo]
  by_cases hxy : x = la ∧ y = lo
  · rw [if_pos hxy, getD_set, hxy.1, hxy.2]
    by_cases hz : z = h
    · rw [if_pos ⟨hz, hh⟩, if_pos ⟨rfl, rfl, hz⟩]
    · rw [if_neg (fun hc => hz hc.1), if_neg (fun hc => hz hc.2.2)]
  · rw [if_neg hxy, if_neg (fun hc => hxy ⟨hc.1, hc.2.1⟩)]

theorem names_mem {α : Type} {l : List (String × α)} {n : String} :
    (∃ v, (n, v) ∈ l) ↔ n ∈ l.map Prod.fst := by
  constructor
  · rintro ⟨v, hv⟩
    exact List.mem_map_of_mem Prod.fst hv
  · intro h
    obtain ⟨p, hp, he⟩ := List.mem_map.1 h
    exact ⟨p.2, by rw [← he]; exact hp⟩

theorem specVars2_keys (store : StoreVars) (la lo : Nat) (vs : Vars) :
    (specVars2 store la lo vs).map Prod.fst = vs.map Prod.fst := by
  simp [specVars2]

theorem specVars3_keys (store : StoreVars) (la lo h : Nat) (vs : Vars) :
    (specVars3 store la lo h vs).map Prod.fst = vs.map Prod.fst := by
  simp [specVars3]

theorem specVars2_mem {store : StoreVars} {la lo : Nat} {vs : Vars} {p : String × Int}
    (hp : p ∈ specVars2 store la lo vs) :
    p.2 = sval2 store p.1 la lo ∧ p.1 ∈ vs.map Prod.fst := by
  obtain ⟨q, hq, he⟩ := List.mem_map.1 hp
  constructor
  · rw [← he]
  · rw [← he]
    show q.1 ∈ vs.map Prod.fst
    exact List.mem_map_of_mem Prod.fst hq

theorem specVars3_mem {store : StoreVars} {la lo h : Nat} {vs : Vars} {p : String × Int}
    (hp : p ∈ specVars3 store la lo h vs) :
    p.2 = sval3 store p.1 la lo h ∧ p.1 ∈ vs.map Prod.fst := by
  obtain ⟨q, hq, he⟩ := List.mem_map.1 hp
  constructor
  · rw [← he]
  · rw [← he]
    show q.1 ∈ vs.map Prod.fst
    exact List.mem_map_of_mem Prod.fst hq

/-! ## Value characterization of the write loops -/

theorem writeVars2_ok {la lo : Nat} :
    ∀ {vs : Vars} {store : StoreVars},
      (∀ p ∈ vs, ∃ a, lookupA store p.1 = some (StoreVal.a2 a) ∧ la < a.length ∧
        lo < (a.getD la []).length) →
      ∃ out, writeVars2 store la lo vs = some out := by
  intro vs
  induction vs with
  | nil =>
    intro store _
    exact ⟨store, rfl⟩
  | cons q rest ih =>
    intro store h
    obtain ⟨a, hlk, hla, hlo⟩ := h q (List.mem_cons_self q rest)
    have hset := set2?_a2 q.2 hla hlo
    have hrest : ∀ p ∈ rest,
        ∃ a', lookupA (setA store q.1
            (StoreVal.a2 (a.set la ((a.getD la []).set lo q.2)))) p.1
          = some (StoreVal.a2 a') ∧ la < a'.length ∧ lo < (a'.getD la []).length := by
      intro p hp
      by_cases hpq : p.1 = q.1
      · refine ⟨a.set la ((a.getD la []).set lo q.2), ?_, ?_, ?_⟩
        · rw [hpq]
          exact lookupA_setA_self _ hlk
        · rw [upd2_len]
          exact hla
        · rw [upd2_rowlen]
          exact hlo
      · obtain ⟨a', h1, h2, h3⟩ := h p (List.mem_cons_of_mem q hp)
        exact ⟨a', by rw [lookupA_setA_ne store q.1 p.1 _ hpq]; exact h1, h2, h3⟩
    obtain ⟨out, hout⟩ := ih hrest
    exact ⟨out, by rw [writeVars2, hlk, Option.some_bind, hset, Option.some_bind]; exact hout⟩

theorem writeVars2_vals {la lo : Nat} :
    ∀ {vs : Vars} {store out : StoreVars},
      (vs.map Prod.fst).Nodup →
      writeVars2 store la lo vs = some out →
      ∀ p ∈ vs, ∃ sv sv', lookupA store p.1 = some sv ∧ set2? sv la lo p.2 = some sv' ∧
        lookupA out p.1 = some sv' := by
  intro vs
  induction vs with
  | nil =>
    intro store out _ _ p hp
    cases hp
  | cons q rest ih =>
    intro store out hnd hw p hp
    simp only [writeVars2, Option.bind_eq_some] at hw
    obtain ⟨sv, hsv, sv', hsv', hrec⟩ := hw
    simp only [List.map_cons, List.nodup_cons] at hnd
    rcases List.mem_cons.1 hp with hp | hp
    · subst hp
      refine ⟨sv, sv', hsv, hsv', ?_⟩
      rw [writeVars2_frame hrec p.1 hnd.1]
      exact lookupA_setA_self _ hsv
    · obtain ⟨sv2, sv2', h1, h2, h3⟩ := ih hnd.2 hrec p hp
      have hne : p.1 ≠ q.1 := fun hc => hnd.1 (hc ▸ List.mem_map_of_mem Prod.fst hp)
      rw [lookupA_setA_ne store q.1 p.1 sv' hne] at h1
      exact ⟨sv2, sv2', h1, h2, h3⟩

theorem writeVars3_ok {la lo hh : Nat} :
    ∀ {vs : Vars} {store : StoreVars},
      (∀ p ∈ vs, ∃ a, lookupA store p.1 = some (StoreVal.a3 a) ∧ la < a.length ∧
        lo < (a.getD la []).length ∧ hh < ((a.getD la []).getD lo []).length) →
      ∃ out, writeVars3 store la lo hh vs = some out := by
  intro vs
  induction vs with
  | nil =>
    intro store _
    exact ⟨store, rfl⟩
  | cons q rest ih =>
    intro store h
    obtain ⟨a, hlk, hla, hlo, hb⟩ := h q (List.mem_cons_self q rest)
    have hset := set3?_a3 q.2 hla hlo hb
    have hrest : ∀ p ∈ rest,
        ∃ a', lookupA (setA store q.1
            (StoreVal.a3 (a.set la ((a.getD la []).set lo
              (((a.getD la []).getD lo []).set hh q.2))))) p.1
          = some (StoreVal.a3 a') ∧ la < a'.length ∧ lo < (a'.getD la []).length ∧
          hh < ((a'.getD la []).getD lo []).length := by
      intro p hp
      by_cases hpq : p.1 = q.1
      · refine ⟨a.set la ((a.getD la []).set lo (((a.getD la []).getD lo []).set hh q.2)),
          ?_, ?_, ?_, ?_⟩
        · rw [hpq]
          exact lookupA_setA_self _ hlk
        · rw [upd3_len]
          exact hla
        · rw [upd3_planelen]
          exact hlo
        · rw [upd3_rowlen hla hlo]
          exact hb
      · obtain ⟨a', h1, h2, h3, h4⟩ := h p (List.mem_cons_of_mem q hp)
        exact ⟨a', by rw [lookupA_setA_ne store q.1 p.1 _ hpq]; exact h1, h2, h3, h4⟩
    obtain ⟨out, hout⟩ := ih hrest
    exact ⟨out, by rw [writeVars3, hlk, Option.some_bind, hset, Option.some_bind]; exact hout⟩

theorem writeVars3_vals {la lo hh : Nat} :
    ∀ {vs : Vars} {store out : StoreVars},
      (vs.map Prod.fst).Nodup →
      writeVars3 store la lo hh vs = some out →
      ∀ p ∈ vs, ∃ sv sv', lookupA store p.1 = some sv ∧ set3? sv la lo hh p.2 = some sv' ∧
        lookupA out p.1 = some sv' := by
  intro vs
  induction vs with
  | nil =>
    intro store out _ _ p hp
    cases hp
  | cons q rest ih =>
    intro store out hnd hw p hp
    simp only [writeVars3, Option.bind_eq_some] at hw
    obtain ⟨sv, hsv, sv', hsv', hrec⟩ := hw
    simp only [List.map_cons, List.nodup_cons] at hnd
    rcases List.mem_cons.1 hp with hp | hp
    · subst hp
      refine ⟨sv, sv', hsv, hsv', ?_⟩
      rw [writeVars3_frame hrec p.1 hnd.1]
      exact lookupA_setA_self _ hsv
    · obtain ⟨sv2, sv2', h1, h2, h3⟩ := ih hnd.2 hrec p hp
      have hne : p.1 ≠ q.1 := fun hc => hnd.1 (hc ▸ List.mem_map_of_mem Prod.fst hp)
      rw [lookupA_setA_ne store q.1 p.1 sv' hne] at h1
      exact ⟨sv2, sv2', h1, h2, h3⟩

/-! ## The write-back invariant through one cell -/

theorem shape2_row_eq {a : List (List Int)} {R L x : Nat} (h : shape2 a R L)
    (hx : x < a.length) : (a.getD x []).length = L :=
  h.2 _ (by rw [getD_eq_getElem' [] hx]; exact List.getElem_mem hx)

theorem shape3_plane_eq {a : List (List (List Int))} {R L K x : Nat} (h : shape3 a R L K)
    (hx : x < a.length) : (a.getD x []).length = L :=
  (h.2 _ (by rw [getD_eq_getElem' [] hx]; exact List.getElem_mem hx)).1

theorem shape3_row_eq {a : List (List (List Int))} {R L K x y : Nat} (h : shape3 a R L K)
    (hx : x < a.length) (hy : y < (a.getD x []).length) :
    ((a.getD x []).getD y []).length = K := by
  have hmem : a.getD x [] ∈ a := by
    rw [getD_eq_getElem' [] hx]
    exact List.getElem_mem hx
  have hmem2 : (a.getD x []).getD y [] ∈ a.getD x [] := by
    rw [getD_eq_getElem' [] hy]
    exact List.getElem_mem hy
  exact (h.2 _ hmem).2 _ hmem2

/-- One cell's 2-D variable writes take the invariant from `WInv m` to
`WInvMid m 0`. -/
theorem writeCellVars_inv {S W : StoreVars} {L R K m : Nat}
    (hS : StoreWF S L R K) (hI : WInv S W L m) (hm : m < R * L)
    {vs : Vars} (hnd : (vs.map Prod.fst).Nodup)
    (hcov : ∀ n, (∃ v, (n, v) ∈ vs) ↔ ∃ a, lookupA S n = some (StoreVal.a2 a)) :
    ∃ W1, writeVars2 W (m / L) (m % L) (specVars2 S (m / L) (m % L) vs) = some W1 ∧
      WInvMid S W1 L m 0 := by
  have hL : 0 < L := hS.2.2.1
  have hla : m / L < R := (Nat.div_lt_iff_lt_mul hL).2 hm
  have hlo : m % L < L := Nat.mod_lt _ hL
  have hflat : (m / L) * L + m % L = m := by
    rw [Nat.mul_comm]
    exact Nat.div_add_mod m L
  obtain ⟨lonA, hlon, hlonlen⟩ := hS.2.1
  have hlon_notin : "lon" ∉ vs.map Prod.fst := by
    intro hc
    obtain ⟨a, ha⟩ := (hcov "lon").1 (names_mem.2 hc)
    rw [hlon] at ha
    cases ha
  have hndspec : ((specVars2 S (m / L) (m % L) vs).map Prod.fst).Nodup := by
    rw [specVars2_keys]
    exact hnd
  -- bounds of every written array, in the current store W
  have hWbound : ∀ p ∈ specVars2 S (m / L) (m % L) vs,
      ∃ b, lookupA W p.1 = some (StoreVal.a2 b) ∧ m / L < b.length ∧
        m % L < (b.getD (m / L) []).length := by
    intro p hp
    obtain ⟨_, hmem⟩ := specVars2_mem hp
    obtain ⟨a, ha⟩ := (hcov p.1).1 (names_mem.2 hmem)
    obtain ⟨b, hb, hbI⟩ := hI.2.2.1 p.1 a ha
    have hsh := hS.a2_shape ha
    refine ⟨b, hb, ?_, ?_⟩
    · rw [hbI.1, hsh.1]
      exact hla
    · rw [hbI.2.1, shape2_row_eq hsh (by rw [hsh.1]; exact hla)]
      exact hlo
  obtain ⟨W1, hW1⟩ := writeVars2_ok hWbound
  refine ⟨W1, hW1, ?_, ?_, ?_, ?_⟩
  · rw [writeVars2_keys hW1]
    exact hI.1
  · rw [writeVars2_frame hW1 "lon" (by rw [specVars2_keys]; exact hlon_notin)]
    exact hI.2.1
  · -- 2-D variables advance to gate m + 1
    intro n a hna
    have hnmem : n ∈ vs.map Prod.fst := names_mem.1 ((hcov n).2 ⟨a, hna⟩)
    have hpmem : (n, sval2 S n (m / L) (m % L)) ∈ specVars2 S (m / L) (m % L) vs := by
      obtain ⟨q, hq, he⟩ := List.mem_map.1 hnmem
      have : (q.1, sval2 S q.1 (m / L) (m % L)) ∈ specVars2 S (m / L) (m % L) vs :=
        List.mem_map_of_mem _ hq
      rw [he] at this
      exact this
    obtain ⟨sv, sv', hsvW, hset, hlkW1⟩ := writeVars2_vals hndspec hW1 _ hpmem
    obtain ⟨b, hb, hbI⟩ := hI.2.2.1 n a hna
    rw [hb] at hsvW
    cases Option.some.inj hsvW
    have hsh := hS.a2_shape hna
    have hbla : m / L < b.length := by rw [hbI.1, hsh.1]; exact hla
    have hblo : m % L < (b.getD (m / L) []).length := by
      rw [hbI.2.1, shape2_row_eq hsh (by rw [hsh.1]; exact hla)]
      exact hlo
    rw [set2?_a2 _ hbla hblo] at hset
    cases Option.some.inj hset
    refine ⟨_, hlkW1, ?_, ?_, ?_⟩
    · rw [upd2_len, hbI.1]
    · intro x
      rw [upd2_rowlen, hbI.2.1]
    · intro x y hx hy
      rw [upd2_getD hbla hblo]
      by_cases hxy : x = m / L ∧ y = m % L
      · obtain ⟨rfl, rfl⟩ := hxy
        rw [if_pos ⟨rfl, rfl⟩, if_pos (show m / L * L + m % L < m + 1 by omega)]
        exact sval2_eq hna
      · rw [if_neg hxy, hbI.2.2 x y hx hy]
        have hyL : y < L := by
          rw [← shape2_row_eq hsh hx]
          exact hy
        have hne : x * L + y ≠ m := by
          intro hc
          obtain ⟨h1, h2⟩ := (flat_eq_iff hyL).1 hc
          exact hxy ⟨h1, h2⟩
        by_cases hlt : x * L + y < m
        · rw [if_pos hlt, if_pos (by omega)]
        · rw [if_neg hlt, if_neg (by omega)]
  · -- 3-D variables stay at gate m (slot threshold 0)
    intro n a hna
    have hnot : n ∉ (specVars2 S (m / L) (m % L) vs).map Prod.fst := by
      rw [specVars2_keys]
      intro hc
      obtain ⟨a2, ha2⟩ := (hcov n).1 (names_mem.2 hc)
      rw [hna] at ha2
      cases ha2
    obtain ⟨b, hb, hbI⟩ := hI.2.2.2 n a hna
    refine ⟨b, ?_, hbI.1, hbI.2.1, hbI.2.2.1, ?_⟩
    · rw [writeVars2_frame hW1 n hnot]
      exact hb
    · intro x y z hx hy hz
      rw [hbI.2.2.2 x y z hx hy hz]
      by_cases hlt : x * L + y < m
      · rw [if_pos hlt, if_pos (Or.inl hlt)]
      · rw [if_neg hlt, if_neg (by omega)]

/-- One HRU's variable writes at slot `h` take the invariant from
`WInvMid m h` to `WInvMid m (h + 1)`. -/
theorem writeHruVars_inv {S W : StoreVars} {L R K m h : Nat}
    (hS : StoreWF S L R K) (hI : WInvMid S W L m h) (hm : m < R * L) (hh : h < K)
    {vs : Vars} (hnd : (vs.map Prod.fst).Nodup)
    (hcov : ∀ n, (∃ v, (n, v) ∈ vs) ↔ ∃ a, lookupA S n = some (StoreVal.a3 a)) :
    ∃ W1, writeVars3 W (m / L) (m % L) h (specVars3 S (m / L) (m % L) h vs) = some W1 ∧
      WInvMid S W1 L m (h + 1) := by
  have hL : 0 < L := hS.2.2.1
  have hla : m / L < R := (Nat.div_lt_iff_lt_mul hL).2 hm
  have hlo : m % L < L := Nat.mod_lt _ hL
  have hflat : (m / L) * L + m % L = m := by
    rw [Nat.mul_comm]
    exact Nat.div_add_mod m L
  obtain ⟨lonA, hlon, hlonlen⟩ := hS.2.1
  have hlon_notin : "lon" ∉ vs.map Prod.fst := by
    intro hc
    obtain ⟨a, ha⟩ := (hcov "lon").1 (names_mem.2 hc)
    rw [hlon] at ha
    cases ha
  have hndspec : ((specVars3 S (m / L) (m % L) h vs).map Prod.fst).Nodup := by
    rw [specVars3_keys]
    exact hnd
  have hWbound : ∀ p ∈ specVars3 S (m / L) (m % L) h vs,
      ∃ b, lookupA W p.1 = some (StoreVal.a3 b) ∧ m / L < b.length ∧
        m % L < (b.getD (m / L) []).length ∧
        h < ((b.getD (m / L) []).getD (m % L) []).length := by
    intro p hp
    obtain ⟨_, hmem⟩ := specVars3_mem hp
    obtain ⟨a, ha⟩ := (hcov p.1).1 (names_mem.2 hmem)
    obtain ⟨b, hb, hbI⟩ := hI.2.2.2 p.1 a ha
    have hsh := hS.a3_shape ha
    have hxa : m / L < a.length := by rw [hsh.1]; exact hla
    have hya : m % L < (a.getD (m / L) []).length := by
      rw [shape3_plane_eq hsh hxa]
      exact hlo
    refine ⟨b, hb, ?_, ?_, ?_⟩
    · rw [hbI.1, hsh.1]
      exact hla
    · rw [hbI.2.1, shape3_plane_eq hsh hxa]
      exact hlo
    · rw [hbI.2.2.1, shape3_row_eq hsh hxa hya]
      exact hh
  obtain ⟨W1, hW1⟩ := writeVars3_ok hWbound
  refine ⟨W1, hW1, ?_, ?_, ?_, ?_⟩
  · rw [writeVars3_keys hW1]
    exact hI.1
  · rw [writeVars3_frame hW1 "lon" (by rw [specVars3_keys]; exact hlon_notin)]
    exact hI.2.1
  · -- 2-D variables keep gate m + 1
    intro n a hna
    have hnot : n ∉ (specVars3 S (m / L) (m % L) h vs).map Prod.fst := by
      rw [specVars3_keys]
      intro hc
      obtain ⟨a3, ha3⟩ := (hcov n).1 (names_mem.2 hc)
      rw [hna] at ha3
      cases ha3
    obtain ⟨b, hb, hbI⟩ := hI.2.2.1 n a hna
    refine ⟨b, ?_, hbI⟩
    rw [writeVars3_frame hW1 n hnot]
    exact hb
  · -- 3-D variables advance the slot threshold
    intro n a hna
    have hnmem : n ∈ vs.map Prod.fst := names_mem.1 ((hcov n).2 ⟨a, hna⟩)
    have hpmem : (n, sval3 S n (m / L) (m % L) h) ∈ specVars3 S (m / L) (m % L) h vs := by
      obtain ⟨q, hq, he⟩ := List.mem_map.1 hnmem
      have hmm : (q.1, sval3 S q.1 (m / L) (m % L) h) ∈ specVars3 S (m / L) (m % L) h vs :=
        List.mem_map_of_mem _ hq
      rw [he] at hmm
      exact hmm
    obtain ⟨sv, sv', hsvW, hset, hlkW1⟩ := writeVars3_vals hndspec hW1 _ hpmem
    obtain ⟨b, hb, hbI⟩ := hI.2.2.2 n a hna
    rw [hb] at hsvW
    cases Option.some.inj hsvW
    have hsh := hS.a3_shape hna
    have hxa : m / L < a.length := by rw [hsh.1]; exact hla
    have hya : m % L < (a.getD (m / L) []).length := by
      rw [shape3_plane_eq hsh hxa]
      exact hlo
    have hbla : m / L < b.length := by rw [hbI.1, hsh.1]; exact hla
    have hblo : m % L < (b.getD (m / L) []).length := by
      rw [hbI.2.1, shape3_plane_eq hsh hxa]
      exact hlo
    have hbh : h < ((b.getD (m / L) []).getD (m % L) []).length := by
      rw [hbI.2.2.1, shape3_row_eq hsh hxa hya]
      exact hh
    rw [set3?_a3 _ hbla hblo hbh] at hset
    cases Option.some.inj hset
    refine ⟨_, hlkW1, ?_, ?_, ?_, ?_⟩
    · rw [upd3_len, hbI.1]
    · intro x
      rw [upd3_planelen, hbI.2.1]
    · intro x y
      rw [upd3_rowlen hbla hblo, hbI.2.2.1]
    · intro x y z hx hy hz
      rw [upd3_getD hbla hblo hbh]
      have hyL : y < L := by
        rw [← shape3_plane_eq hsh hx]
        exact hy
      by_cases hxyz : x = m / L ∧ y = m % L ∧ z = h
      · obtain ⟨rfl, rfl, rfl⟩ := hxyz
        rw [if_pos ⟨rfl, rfl, rfl⟩,
          if_pos (Or.inr ⟨hflat, by omega⟩)]
        exact sval3_eq hna
      · rw [if_neg hxyz, hbI.2.2.2 x y z hx hy hz]
        by_cases hxy : x = m / L ∧ y = m % L
        · obtain ⟨rfl, rfl⟩ := hxy
          have hzh : z ≠ h := fun hc => hxyz ⟨rfl, rfl, hc⟩
          by_cases hcase : z < h
          · rw [if_pos (Or.inr ⟨hflat, hcase⟩), if_pos (Or.inr ⟨hflat, by omega⟩)]
          · have hnew : ¬ (m / L * L + m % L < m ∨ (m / L * L + m % L = m ∧ z < h)) := by
              omega
            have hnew1 : ¬ (m / L * L + m % L < m ∨ (m / L * L + m % L = m ∧ z < h + 1)) := by
              omega
            rw [if_neg hnew, if_neg hnew1]
        · have hne : x * L + y ≠ m := by
            intro hc
            obtain ⟨h1, h2⟩ := (flat_eq_iff hyL).1 hc
            exact hxy ⟨h1, h2⟩
          by_cases hlt : x * L + y < m
          · rw [if_pos (Or.inl hlt), if_pos (Or.inl hlt)]
          · have hfalse : ¬ (x * L + y < m ∨ (x * L + y = m ∧ z < h)) := by omega
            have hfalse1 : ¬ (x * L + y < m ∨ (x * L + y = m ∧ z < h + 1)) := by omega
            rw [if_neg hfalse, if_neg hfalse1]

/-- Walking one band's keys against the spec HRUs advances the slot
threshold by the key count. -/
theorem writeHrus_inv {S : StoreVars} {L R K m : Nat} (hS : StoreWF S L R K) (hm : m < R * L) :
    ∀ {keys : List Int} {hrusS : List (Int × HRU)} {W : StoreVars} {habs : Nat},
      (∀ (j : Nat) (k : Int), keys[j]? = some k → ∃ vars0 : Vars,
        lookupA hrusS k = some (HRU.mk (HruState.mk
          (specVars3 S (m / L) (m % L) (habs + j) vars0))) ∧
        (vars0.map Prod.fst).Nodup ∧
        (∀ n, (∃ v, (n, v) ∈ vars0) ↔ ∃ a, lookupA S n = some (StoreVal.a3 a))) →
      habs + keys.length ≤ K →
      WInvMid S W L m habs →
      ∃ W', writeHrus (m / L) (m % L) hrusS W keys habs = some (W', habs + keys.length) ∧
        WInvMid S W' L m (habs + keys.length) := by
  intro keys
  induction keys with
  | nil =>
    intro hrusS W habs _ _ hI
    simp only [List.length_nil, Nat.add_zero]
    exact ⟨W, rfl, hI⟩
  | cons k ks ih =>
    intro hrusS W habs hlk hbound hI
    obtain ⟨vars0, hlook, hnd0, hcov0⟩ := hlk 0 k (by simp)
    rw [Nat.add_zero] at hlook
    have hh : habs < K := by
      simp only [List.length_cons] at hbound
      omega
    obtain ⟨W1, hW1, hI1⟩ := writeHruVars_inv hS hI hm hh hnd0 hcov0
    have hlk' : ∀ (j : Nat) (k' : Int), ks[j]? = some k' → ∃ vars0' : Vars,
        lookupA hrusS k' = some (HRU.mk (HruState.mk
          (specVars3 S (m / L) (m % L) ((habs + 1) + j) vars0'))) ∧
        (vars0'.map Prod.fst).Nodup ∧
        (∀ n, (∃ v, (n, v) ∈ vars0') ↔ ∃ a, lookupA S n = some (StoreVal.a3 a)) := by
      intro j k' hj
      have hj' : (k :: ks)[j + 1]? = some k' := by simpa using hj
      obtain ⟨v0, h1, h2, h3⟩ := hlk (j + 1) k' hj'
      refine ⟨v0, ?_, h2, h3⟩
      rw [show habs + 1 + j = habs + (j + 1) by omega]
      exact h1
    have hbound' : habs + 1 + ks.length ≤ K := by
      simp only [List.length_cons] at hbound
      omega
    obtain ⟨W', hWr, hIr⟩ := ih hlk' hbound' hI1
    have harith : habs + (k :: ks).length = habs + 1 + ks.length := by
      simp only [List.length_cons]
      omega
    rw [harith]
    refine ⟨W', ?_, hIr⟩
    rw [writeHrus, hlook, Option.some_bind]
    show (writeVars3 W (m / L) (m % L) habs
        (specVars3 S (m / L) (m % L) habs vars0)).bind _ = _
    rw [hW1, Option.some_bind]
    exact hWr

/-- Walking a cell's spec bands takes the invariant from slot `habs` to
slot `habs + Σ key counts`. -/
theorem writeBands_inv {S : StoreVars} {L R K m : Nat} (hS : StoreWF S L R K) (hm : m < R * L) :
    ∀ {bands : List Band} {W : StoreVars} {habs : Nat},
      (∀ b ∈ bands, b.hru_keys_sorted.Nodup ∧
        ∀ k ∈ b.hru_keys_sorted, ∃ hru, lookupA b.hrus k = some hru ∧
          (hru.hru_state.variables.map Prod.fst).Nodup ∧
          (∀ n, (∃ v, (n, v) ∈ hru.hru_state.variables) ↔
            ∃ a, lookupA S n = some (StoreVal.a3 a))) →
      habs + (bands.map (fun b => b.hru_keys_sorted.length)).sum ≤ K →
      WInvMid S W L m habs →
      ∃ W', writeBands (m / L) (m % L) W (specBands S (m / L) (m % L) bands habs) habs
          = some (W', habs + (bands.map (fun b => b.hru_keys_sorted.length)).sum) ∧
        WInvMid S W' L m
          (habs + (bands.map (fun b => b.hru_keys_sorted.length)).sum) := by
  intro bands
  induction bands with
  | nil =>
    intro W habs _ _ hI
    rw [List.map_nil, List.sum_nil, Nat.add_zero]
    exact ⟨W, rfl, hI⟩
  | cons b bs ih =>
    intro W habs hbands hbound hI
    have hL : 0 < L := hS.2.2.1
    have hla : m / L < R := (Nat.div_lt_iff_lt_mul hL).2 hm
    have hlo : m % L < L := Nat.mod_lt _ hL
    simp only [List.map_cons, List.sum_cons] at hbound
    obtain ⟨hndk, hkeys⟩ := hbands b (List.mem_cons_self b bs)
    -- the read pass on the reference store builds exactly the spec HRUs
    have hread : readHrus S (m / L) (m % L) b.hru_keys_sorted b.hrus habs
        = some (specHrus S (m / L) (m % L) b.hru_keys_sorted b.hrus habs,
            habs + b.hru_keys_sorted.length) := by
      refine readHrus_ok hndk ?_
      intro k hk
      obtain ⟨hru, h1, _, h2⟩ := hkeys k hk
      refine ⟨hru, h1, ?_⟩
      intro p hp
      obtain ⟨a, ha⟩ := (h2 p.1).1 ⟨p.2, by simpa using hp⟩
      have hsh := hS.a3_shape ha
      have hxa : m / L < a.length := by rw [hsh.1]; exact hla
      have hya : m % L < (a.getD (m / L) []).length := by
        rw [shape3_plane_eq hsh hxa]
        exact hlo
      refine ⟨a, ha, hxa, hya, ?_⟩
      rw [shape3_row_eq hsh hxa hya]
      omega
    have hlk : ∀ (j : Nat) (k : Int), b.hru_keys_sorted[j]? = some k → ∃ vars0 : Vars,
        lookupA (specHrus S (m / L) (m % L) b.hru_keys_sorted b.hrus habs) k
          = some (HRU.mk (HruState.mk
            (specVars3 S (m / L) (m % L) (habs + j) vars0))) ∧
        (vars0.map Prod.fst).Nodup ∧
        (∀ n, (∃ v, (n, v) ∈ vars0) ↔ ∃ a, lookupA S n = some (StoreVal.a3 a)) := by
      intro j k hj
      obtain ⟨hru0, hh0, hlkS, _⟩ := readHrus_elem hread hndk hj
      have hkmem : k ∈ b.hru_keys_sorted := by
        obtain ⟨hlt, he⟩ := List.getElem?_eq_some.1 hj
        exact he ▸ List.getElem_mem hlt
      obtain ⟨hru1, h1, h2, h3⟩ := hkeys k hkmem
      have hsame : hru0 = hru1 := by
        rw [hh0] at h1
        exact Option.some.inj h1
      exact ⟨hru0.hru_state.variables, hlkS, by rw [hsame]; exact h2,
        by rw [hsame]; exact h3⟩
    obtain ⟨W1, hW1, hI1⟩ := writeHrus_inv hS hm hlk (by omega) hI
    obtain ⟨W', hWr, hIr⟩ := @ih W1 (habs + b.hru_keys_sorted.length)
      (fun b' hb' => hbands b' (List.mem_cons_of_mem b hb')) (by omega) hI1
    have harith : habs + (b.hru_keys_sorted.length
          + (bs.map (fun b => b.hru_keys_sorted.length)).sum)
        = habs + b.hru_keys_sorted.length
          + (bs.map (fun b => b.hru_keys_sorted.length)).sum := by
      omega
    rw [List.map_cons, List.sum_cons, harith]
    refine ⟨W', ?_, hIr⟩
    rw [specBands, writeBands]
    show (writeHrus (m / L) (m % L)
        (specHrus S (m / L) (m % L) b.hru_keys_sorted b.hrus habs) W
        b.hru_keys_sorted habs).bind _ = _
    rw [hW1, Option.some_bind]
    exact hWr

/-- Once all `K` slots of cell `m` are written, the invariant advances to
the next cell. -/
theorem WInvMid_complete {S W : StoreVars} {L R K m : Nat} (hS : StoreWF S L R K)
    (hI : WInvMid S W L m K) : WInv S W L (m + 1) := by
  refine ⟨hI.1, hI.2.1, hI.2.2.1, ?_⟩
  intro n a hna
  obtain ⟨b, hb, hbI⟩ := hI.2.2.2 n a hna
  refine ⟨b, hb, hbI.1, hbI.2.1, hbI.2.2.1, ?_⟩
  intro x y z hx hy hz
  rw [hbI.2.2.2 x y z hx hy hz]
  have hzK : z < K := by
    rw [← shape3_row_eq (hS.a3_shape hna) hx hy]
    exact hz
  by_cases hlt : x * L + y < m + 1
  · rw [if_pos (show x * L + y < m ∨ (x * L + y = m ∧ z < K) by omega), if_pos hlt]
  · rw [if_neg (show ¬ (x * L + y < m ∨ (x * L + y = m ∧ z < K)) by omega), if_neg hlt]

theorem zeroExceptLon_keys (S : StoreVars) :
    (zeroExceptLon S).map Prod.fst = S.map Prod.fst := by
  induction S with
  | nil => rfl
  | cons p ps ih =>
    show ((if p.1 = "lon" then p else (p.1, p.2.zeroed)) :: zeroExceptLon ps).map Prod.fst
      = (p :: ps).map Prod.fst
    by_cases hp : p.1 = "lon"
    · rw [if_pos hp]
      simp [ih]
    · rw [if_neg hp]
      simp [ih]

theorem lookupA_zeroExceptLon (S : StoreVars) (n : String) :
    lookupA (zeroExceptLon S) n
      = if n = "lon" then lookupA S n else (lookupA S n).map StoreVal.zeroed := by
  induction S with
  | nil =>
    by_cases hn : n = "lon" <;> simp [zeroExceptLon, lookupA, hn]
  | cons p ps ih =>
    show lookupA ((if p.1 = "lon" then p else (p.1, p.2.zeroed)) :: zeroExceptLon ps) n = _
    by_cases hp : p.1 = "lon"
    · rw [if_pos hp]
      by_cases hn : p.1 = n
      · have hnl : n = "lon" := by rw [← hn]; exact hp
        rw [lookupA, if_pos hn, if_pos hnl, lookupA, if_pos hn]
      · rw [lookupA, if_neg hn, lookupA, if_neg hn, ih]
    · rw [if_neg hp]
      by_cases hn : p.1 = n
      · have hnl : n ≠ "lon" := by rw [← hn]; exact hp
        rw [lookupA, if_pos hn, if_neg hnl, lookupA, if_pos hn]
        rfl
      · rw [lookupA, if_neg hn, lookupA, if_neg hn, ih]

theorem zeroed2_rowlen (a : List (List Int)) (x : Nat) :
    ((a.map (fun row => row.map (fun _ => (0 : Int)))).getD x []).length
      = (a.getD x []).length := by
  rw [List.getD_eq_getElem?_getD, List.getD_eq_getElem?_getD, List.getElem?_map]
  cases h : a[x]? <;> simp

theorem zeroed2_getD (a : List (List Int)) {x y : Nat} (hx : x < a.length)
    (hy : y < (a.getD x []).length) :
    ((a.map (fun row => row.map (fun _ => (0 : Int)))).getD x []).getD y 0 = 0 := by
  have hx' : x < (a.map (fun row => row.map (fun _ => (0 : Int)))).length := by
    rw [List.length_map]
    exact hx
  rw [getD_eq_getElem' [] hx', List.getElem_map]
  have hy' : y < (a[x].map (fun _ => (0 : Int))).length := by
    rw [List.length_map, ← getD_eq_getElem' [] hx]
    exact hy
  rw [getD_eq_getElem' 0 hy', List.getElem_map]

theorem zeroed3_planelen (a : List (List (List Int))) (x : Nat) :
    ((a.map (fun p => p.map (fun row => row.map (fun _ => (0 : Int))))).getD x []).length
      = (a.getD x []).length := by
  rw [List.getD_eq_getElem?_getD, List.getD_eq_getElem?_getD, List.getElem?_map]
  cases h : a[x]? <;> simp

theorem zeroed3_rowlen (a : List (List (List Int))) (x y : Nat) :
    (((a.map (fun p => p.map (fun row => row.map (fun _ => (0 : Int))))).getD x
        []).getD y []).length
      = ((a.getD x []).getD y []).length := by
  rw [List.getD_eq_getElem?_getD (l := a), List.getD_eq_getElem?_getD
    (l := a.map (fun p => p.map (fun row => row.map (fun _ => (0 : Int))))),
    List.getElem?_map]
  cases h : a[x]? with
  | none => simp
  | some p =>
    simp only [Option.map_some', Option.getD_some]
    rw [List.getD_eq_getElem?_getD, List.getD_eq_getElem?_getD, List.getElem?_map]
    cases hy : p[y]? <;> simp

theorem zeroed3_getD (a : List (List (List Int))) {x y z : Nat} (hx : x < a.length)
    (hy : y < (a.getD x []).length) (hz : z < ((a.getD x []).getD y []).length) :
    (((a.map (fun p => p.map (fun row => row.map (fun _ => (0 : Int))))).getD x
        []).getD y []).getD z 0 = 0 := by
  have hx' : x < (a.map (fun p => p.map (fun row => row.map (fun _ => (0 : Int))))).length := by
    rw [List.length_map]
    exact hx
  rw [getD_eq_getElem' [] hx', List.getElem_map]
  have hy' : y < (a[x].map (fun row => row.map (fun _ => (0 : Int)))).length := by
    rw [List.length_map, ← getD_eq_getElem' [] hx]
    exact hy
  rw [getD_eq_getElem' [] hy', List.getElem_map]
  have hyx : y < a[x].length := by
    rw [← getD_eq_getElem' [] hx]
    exact hy
  have hz' : z < (a[x][y].map (fun _ => (0 : Int))).length := by
    rw [List.length_map]
    have e2 : (a.getD x []).getD y [] = a[x][y] := by
      rw [getD_eq_getElem' [] hx, getD_eq_getElem' [] hyx]
    rw [← e2]
    exact hz
  rw [getD_eq_getElem' 0 hz', List.getElem_map]

/-- The freshly zeroed store satisfies the write-back invariant at cell 0. -/
theorem WInv_base {S : StoreVars} {L R K : Nat} (hS : StoreWF S L R K) :
    WInv S (zeroExceptLon S) L 0 := by
  obtain ⟨lonA, hlon, hlonlen⟩ := hS.2.1
  refine ⟨zeroExceptLon_keys S, ?_, ?_, ?_⟩
  · rw [lookupA_zeroExceptLon, if_pos rfl]
  · intro n a hna
    have hnlon : n ≠ "lon" := by
      intro hc
      rw [hc, hlon] at hna
      cases hna
    rw [lookupA_zeroExceptLon, if_neg hnlon, hna]
    refine ⟨a.map (fun row => row.map (fun _ => 0)), by simp [StoreVal.zeroed], ?_, ?_, ?_⟩
    · simp
    · intro x
      exact zeroed2_rowlen a x
    · intro x y hx hy
      rw [zeroed2_getD a hx hy, if_neg (by omega)]
  · intro n a hna
    have hnlon : n ≠ "lon" := by
      intro hc
      rw [hc, hlon] at hna
      cases hna
    rw [lookupA_zeroExceptLon, if_neg hnlon, hna]
    refine ⟨a.map (fun p => p.map (fun row => row.map (fun _ => 0))),
      by simp [StoreVal.zeroed], ?_, ?_, ?_, ?_⟩
    · simp
    · intro x
      exact zeroed3_planelen a x
    · intro x y
      exact zeroed3_rowlen a x y
    · intro x y z hx hy hz
      rw [zeroed3_getD a hx hy hz, if_neg (by omega)]

/-- When every cell has been written the store equals the reference store. -/
theorem WInv_final {S W : StoreVars} {L R K : Nat} (hS : StoreWF S L R K)
    (hI : WInv S W L (R * L)) : W = S := by
  refine assoc_ext hI.1 hS.1 ?_
  intro n
  by_cases hmem : n ∈ S.map Prod.fst
  · obtain ⟨sv, hsv⟩ := lookupA_isSome_of_mem_keys hmem
    rcases hS.2.2.2 _ (lookupA_mem hsv) with h1 | h2 | h3
    · simp only at h1
      rw [hsv, h1]
      rw [h1] at hsv
      rw [hI.2.1, hsv]
    · obtain ⟨a, ha, hsh⟩ := h2
      simp only at ha
      rw [ha] at hsv
      obtain ⟨b, hb, hbI⟩ := hI.2.2.1 n a hsv
      have hba : b = a := by
        refine ext2_getD hbI.1 hbI.2.1 ?_
        intro x y hx hy
        have hxR : x < R := by rw [← hsh.1]; exact hx
        have hyL : y < L := by rw [← shape2_row_eq hsh hx]; exact hy
        rw [hbI.2.2 x y hx hy, if_pos (flat_lt hxR hyL)]
      rw [hb, hsv, hba]
    · obtain ⟨a, ha, hsh⟩ := h3
      simp only at ha
      rw [ha] at hsv
      obtain ⟨b, hb, hbI⟩ := hI.2.2.2 n a hsv
      have hba : b = a := by
        refine ext3_getD hbI.1 hbI.2.1 hbI.2.2.1 ?_
        intro x y z hx hy hz
        have hxR : x < R := by rw [← hsh.1]; exact hx
        have hyL : y < L := by rw [← shape3_plane_eq hsh hx]; exact hy
        rw [hbI.2.2.2 x y z hx hy hz, if_pos (flat_lt hxR hyL)]
      rw [hb, hsv, hba]
  · rw [lookupA_eq_none_of_not_mem (by rw [hI.1]; exact hmem),
      lookupA_eq_none_of_not_mem hmem]

/-- Writing the spec hierarchy back advances the invariant by one cell per
entry. -/
theorem writeCells_inv {S : StoreVars} {L R K : Nat} (hS : StoreWF S L R K) :
    ∀ {cells : Cells} {m : Nat} {W : StoreVars},
      m + cells.length ≤ R * L →
      (∀ p ∈ cells, CellWF S K p.2) →
      WInv S W L m →
      ∃ W', writeCells L W (specCells S L cells m) m = some W' ∧
        WInv S W' L (m + cells.length) := by
  intro cells
  induction cells with
  | nil =>
    intro m W _ _ hI
    simp only [List.length_nil, Nat.add_zero]
    exact ⟨W, rfl, hI⟩
  | cons c rest ih =>
    intro m W hlen hwf hI
    have hL : 0 < L := hS.2.2.1
    have hm : m < R * L := by
      simp only [List.length_cons] at hlen
      omega
    obtain ⟨hndv, hvars, hbands, htot⟩ := hwf c (List.mem_cons_self c rest)
    obtain ⟨W1, hW1, hI1⟩ := writeCellVars_inv hS hI hm hndv hvars
    have hbB : ∀ b ∈ c.2.bands, b.hru_keys_sorted.Nodup ∧
        ∀ k ∈ b.hru_keys_sorted, ∃ hru, lookupA b.hrus k = some hru ∧
          (hru.hru_state.variables.map Prod.fst).Nodup ∧
          (∀ n, (∃ v, (n, v) ∈ hru.hru_state.variables) ↔
            ∃ a, lookupA S n = some (StoreVal.a3 a)) := by
      intro b hb
      obtain ⟨h1, h2⟩ := hbands b hb
      refine ⟨h1, ?_⟩
      intro k hk
      obtain ⟨hru, g1, g2, g3⟩ := h2 k hk
      exact ⟨hru, g1, g2, g3⟩
    have hsumK : (c.2.bands.map (fun b => b.hru_keys_sorted.length)).sum = K := htot
    obtain ⟨W2, hW2, hI2⟩ := @writeBands_inv _ _ _ _ _ hS hm _ _ 0 hbB (by omega) hI1
    rw [Nat.zero_add, hsumK] at hW2 hI2
    have hI3 : WInv S W2 L (m + 1) := WInvMid_complete hS hI2
    have hlen' : m + 1 + rest.length ≤ R * L := by
      simp only [List.length_cons] at hlen
      omega
    obtain ⟨W', hWr, hIr⟩ := ih hlen' (fun p hp => hwf p (List.mem_cons_of_mem c hp)) hI3
    refine ⟨W', ?_, ?_⟩
    · show writeCells L W ((c.1, Cell.mk
          (CellState.mk (specVars2 S (m / L) (m % L) c.2.cell_state.variables))
          (specBands S (m / L) (m % L) c.2.bands 0)) :: specCells S L rest (m + 1)) m = _
      rw [writeCells, get_2D_cell_indices, if_neg (by omega), Option.some_bind]
      show (writeVars2 W (m / L) (m % L)
          (specVars2 S (m / L) (m % L) c.2.cell_state.variables)).bind _ = _
      rw [hW1, Option.some_bind]
      show (writeBands (m / L) (m % L) W1
          (specBands S (m / L) (m % L) c.2.bands 0) 0).bind _ = _
      rw [hW2, Option.some_bind]
      exact hWr
    · have harith : m + (c :: rest).length = m + 1 + rest.length := by
        simp only [List.length_cons]
        omega
      rw [harith]
      exact hIr

/-- C1 (amended).  On a well-formed store whose hierarchy mirrors it
exactly, pulling the store with `read_state` and pushing the result with
`write_state` into the freshly zeroed store of identical shape (state
variables zeroed, the `lon` coordinate axis kept) reproduces the original
store exactly. -/
theorem state_round_trip {store : StoreVars} {L R K : Nat} {cells : Cells}
    (hS : StoreWF store L R K) (hC : CellsWF store L R K cells) :
    ∃ out, read_state (StateStore.mk store) cells = some (out, StateStore.mk store) ∧
      write_state (StateStore.mk (zeroExceptLon store)) out
        = some (StateStore.mk store) := by
  refine ⟨specCells store L cells 0, read_state_ok hS hC, ?_⟩
  obtain ⟨lonA, hlon, hlonlen⟩ := hS.2.1
  have hnl : numLons? (zeroExceptLon store) = some L := by
    rw [numLons?, lookupA_zeroExceptLon, if_pos rfl, hlon]
    simp [StoreVal.len, hlonlen]
  rw [write_state]
  show (numLons? (zeroExceptLon store)).bind _ = _
  rw [hnl, Option.some_bind]
  obtain ⟨W', hW', hIr⟩ := writeCells_inv hS (m := 0)
    (by rw [hC.1]; omega) hC.2 (WInv_base hS)
  rw [hW', Option.some_bind]
  have hfin : W' = store := by
    refine WInv_final hS ?_
    rw [← Nat.zero_add (R * L), ← hC.1]
    exact hIr
  rw [hfin]

/-- Counterexample to C1 as stated: a store whose single state variable is
declared by no HRU.  The cell's total HRU count (1) matches the store's HRU
axis length (1), `read_state` and `write_state` both complete, the target
store is the fully zeroed store of identical shape (its `lon` axis is
already zero), yet the pushed store keeps the zero — the original value 5
is not reproduced. -/
theorem state_round_trip_cex :
    totalHrus (Cell.mk (CellState.mk []) [Band.mk [0] [(0, HRU.mk (HruState.mk []))]]) = 1 ∧
    (∃ a, lookupA [("lon", StoreVal.a1 [0]), ("x", StoreVal.a3 [[[5]]])] "x"
        = some (StoreVal.a3 a) ∧ ((a.getD 0 []).getD 0 []).length = 1) ∧
    zeroExceptLon [("lon", StoreVal.a1 [0]), ("x", StoreVal.a3 [[[5]]])]
      = [("lon", StoreVal.a1 [0]), ("x", StoreVal.a3 [[[0]]])] ∧
    read_state (StateStore.mk [("lon", StoreVal.a1 [0]), ("x", StoreVal.a3 [[[5]]])])
        [("c", Cell.mk (CellState.mk []) [Band.mk [0] [(0, HRU.mk (HruState.mk []))]])]
      = some ([("c", Cell.mk (CellState.mk [])
            [Band.mk [0] [(0, HRU.mk (HruState.mk []))]])],
          StateStore.mk [("lon", StoreVal.a1 [0]), ("x", StoreVal.a3 [[[5]]])]) ∧
    write_state (StateStore.mk [("lon", StoreVal.a1 [0]), ("x", StoreVal.a3 [[[0]]])])
        [("c", Cell.mk (CellState.mk []) [Band.mk [0] [(0, HRU.mk (HruState.mk []))]])]
      = some (StateStore.mk [("lon", StoreVal.a1 [0]), ("x", StoreVal.a3 [[[0]]])]) ∧
    StateStore.mk ([("lon", StoreVal.a1 [0]), ("x", StoreVal.a3 [[[0]]])] : StoreVars)
      ≠ StateStore.mk [("lon", StoreVal.a1 [0]), ("x", StoreVal.a3 [[[5]]])] := by
  refine ⟨by decide, ⟨[[[5]]], by decide, by decide⟩, by decide, by decide, by decide, by decide⟩

/-- Witness for the amended C1 at a one-cell store with one 2-D and one
3-D variable. -/
theorem state_round_trip_witness :
    ∃ out, read_state (StateStore.mk [("lon", StoreVal.a1 [7]), ("cv", StoreVal.a2 [[3]]),
          ("hv", StoreVal.a3 [[[4]]])])
        [("c1", Cell.mk (CellState.mk [("cv", 0)])
          [Band.mk [2] [(2, HRU.mk (HruState.mk [("hv", 0)]))]])]
      = some (out, StateStore.mk [("lon", StoreVal.a1 [7]), ("cv", StoreVal.a2 [[3]]),
          ("hv", StoreVal.a3 [[[4]]])]) ∧
      write_state (StateStore.mk (zeroExceptLon [("lon", StoreVal.a1 [7]),
          ("cv", StoreVal.a2 [[3]]), ("hv", StoreVal.a3 [[[4]]])])) out
        = some (StateStore.mk [("lon", StoreVal.a1 [7]), ("cv", StoreVal.a2 [[3]]),
            ("hv", StoreVal.a3 [[[4]]])]) := by
  have hcov2 : ∀ n, (∃ v, (n, v) ∈ ([("cv", (0 : Int))] : Vars)) ↔
      ∃ a, lookupA [("lon", StoreVal.a1 [7]), ("cv", StoreVal.a2 [[3]]),
        ("hv", StoreVal.a3 [[[4]]])] n = some (StoreVal.a2 a) := by
    intro n
    constructor
    · rintro ⟨v, hv⟩
      simp only [List.mem_singleton] at hv
      have hn : n = "cv" := congrArg Prod.fst hv
      subst hn
      exact ⟨[[3]], by decide⟩
    · rintro ⟨a, ha⟩
      by_cases h1 : n = "lon"
      · subst h1
        rw [show lookupA [("lon", StoreVal.a1 [7]), ("cv", StoreVal.a2 [[3]]),
          ("hv", StoreVal.a3 [[[4]]])] "lon" = some (StoreVal.a1 [7]) from by decide] at ha
        cases ha
      by_cases h2 : n = "cv"
      · subst h2
        exact ⟨0, by decide⟩
      by_cases h3 : n = "hv"
      · subst h3
        rw [show lookupA [("lon", StoreVal.a1 [7]), ("cv", StoreVal.a2 [[3]]),
          ("hv", StoreVal.a3 [[[4]]])] "hv" = some (StoreVal.a3 [[[4]]]) from by decide] at ha
        cases ha
      · rw [lookupA_eq_none_of_not_mem (by simp [h1, h2, h3])] at ha
        cases ha
  have hcov3 : ∀ n, (∃ v, (n, v) ∈ ([("hv", (0 : Int))] : Vars)) ↔
      ∃ a, lookupA [("lon", StoreVal.a1 [7]), ("cv", StoreVal.a2 [[3]]),
        ("hv", StoreVal.a3 [[[4]]])] n = some (StoreVal.a3 a) := by
    intro n
    constructor
    · rintro ⟨v, hv⟩
      simp only [List.mem_singleton] at hv
      have hn : n = "hv" := congrArg Prod.fst hv
      subst hn
      exact ⟨[[[4]]], by decide⟩
    · rintro ⟨a, ha⟩
      by_cases h1 : n = "lon"
      · subst h1
        rw [show lookupA [("lon", StoreVal.a1 [7]), ("cv", StoreVal.a2 [[3]]),
          ("hv", StoreVal.a3 [[[4]]])] "lon" = some (StoreVal.a1 [7]) from by decide] at ha
        cases ha
      by_cases h2 : n = "cv"
      · subst h2
        rw [show lookupA [("lon", StoreVal.a1 [7]), ("cv", StoreVal.a2 [[3]]),
          ("hv", StoreVal.a3 [[[4]]])] "cv" = some (StoreVal.a2 [[3]]) from by decide] at ha
        cases ha
      by_cases h3 : n = "hv"
      · subst h3
        exact ⟨0, by decide⟩
      · rw [lookupA_eq_none_of_not_mem (by simp [h1, h2, h3])] at ha
        cases ha
  have hS : StoreWF [("lon", StoreVal.a1 [7]), ("cv", StoreVal.a2 [[3]]),
      ("hv", StoreVal.a3 [[[4]]])] 1 1 1 := by
    refine ⟨by decide, ⟨[7], by decide, by decide⟩, by decide, ?_⟩
    intro p hp
    simp only [List.mem_cons, List.not_mem_nil, or_false] at hp
    rcases hp with rfl | rfl | rfl
    · exact Or.inl rfl
    · refine Or.inr (Or.inl ⟨[[3]], rfl, ?_⟩)
      refine ⟨rfl, ?_⟩
      intro row hrow
      simp only [List.mem_singleton] at hrow
      rw [hrow]
      rfl
    · refine Or.inr (Or.inr ⟨[[[4]]], rfl, ?_⟩)
      refine ⟨rfl, ?_⟩
      intro q hq
      simp only [List.mem_singleton] at hq
      rw [hq]
      refine ⟨rfl, ?_⟩
      intro row hrow
      simp only [List.mem_singleton] at hrow
      rw [hrow]
      rfl
  have hC : CellsWF [("lon", StoreVal.a1 [7]), ("cv", StoreVal.a2 [[3]]),
      ("hv", StoreVal.a3 [[[4]]])] 1 1 1
      [("c1", Cell.mk (CellState.mk [("cv", 0)])
        [Band.mk [2] [(2, HRU.mk (HruState.mk [("hv", 0)]))]])] := by
    refine ⟨by decide, ?_⟩
    intro p hp
    simp only [List.mem_singleton] at hp
    subst hp
    refine ⟨by decide, hcov2, ?_, by decide⟩
    intro b hb
    simp only [List.mem_singleton] at hb
    subst hb
    refine ⟨by decide, ?_⟩
    intro k hk
    simp only [List.mem_singleton] at hk
    subst hk
    exact ⟨HRU.mk (HruState.mk [("hv", 0)]), by decide, by decide, hcov3⟩
  exact state_round_trip hS hC

end Conductor
